import Mathlib

/-!
# LAS point-cloud decoder: shallow embedding and verified properties

Embedding of `src/wasm/laz_decoder_full.cpp` (class `LAZDecoder`) and of
`src/wasm/laz_wrapper.cpp` (its class `LAZDecoder`, in namespace `Wrapper`).

Modelling conventions

* A byte buffer (`std::vector<uint8_t>`) is a `List Byte` with `Byte = Fin 256`.
* The target is Emscripten/wasm32: `size_t`, `uint32_t` and `unsigned int` are
  32 bits wide, so every `uint32_t`/`size_t` sum is taken `% 2^32`.
  `std::vector<uint8_t>::max_size()` is `2^31 - 1` there; `FitsVector` names
  that bound.
* `memcpy(&s, data_.data() + off, n)` is `readBytes data off n`, which is `none`
  when `off + n` exceeds the buffer: an out-of-bounds read is undefined
  behaviour, and the whole call then yields `none`. What the wasm machine does
  with such a copy (it reads the linear memory around the vector and goes on)
  is the second reading of the point loop, `loadDataMem`.
* A packed struct that is filled by `memcpy` is kept as its object
  representation (the list of its bytes); a field is read at its packed
  offset, little-endian (wasm is little-endian).
* `double` arithmetic is a parameter (`DoubleOps`): the decoder only converts,
  multiplies, adds, subtracts and compares doubles.
* `points_.reserve(n)` throws `std::length_error` when `n` exceeds
  `std::vector<Point>::max_size()` (`maxSizePoints`); the call then does not
  return, which is `none` as well. Below that bound, and for the copies
  `data_ = data`, allocation is taken to succeed.
-/

namespace LAZ

/-- One octet of the input buffer (`uint8_t`). -/
abbrev Byte := Fin 256

/-- The arithmetic on `double` that the decoder uses. `ofBits` reinterprets the
64-bit pattern of a `double` field, `ofInt` is the conversion from `int32_t`
(or from the literal `0`). -/
structure DoubleOps (F : Type) where
  ofBits : Nat → F
  ofInt : Int → F
  add : F → F → F
  sub : F → F → F
  mul : F → F → F
  le : F → F → Bool

/-- The bound `std::vector<uint8_t>::max_size()` puts on a buffer on wasm32. -/
def FitsVector (b : List Byte) : Prop := b.length < 2 ^ 31

instance (b : List Byte) : Decidable (FitsVector b) := by
  unfold FitsVector; infer_instance

/-! ## Raw memory access -/

/-- Value of `memcpy(dst, data.data() + off, n)`: the `n` bytes at `off`, or
`none` when the source range leaves the buffer. -/
def readBytes (data : List Byte) (off n : Nat) : Option (List Byte) :=
  if off + n ≤ data.length then some ((data.drop off).take n) else none

/-- The byte at index `i` of a struct's object representation. -/
def byteAt (l : List Byte) (i : Nat) : Nat := (l.getD i 0).val

/-- Little-endian `uint16_t` at offset `i`. -/
def u16le (l : List Byte) (i : Nat) : Nat := byteAt l i + 256 * byteAt l (i + 1)

/-- Little-endian `uint32_t` at offset `i`. -/
def u32le (l : List Byte) (i : Nat) : Nat :=
  byteAt l i + 256 * byteAt l (i + 1) + 65536 * byteAt l (i + 2) + 16777216 * byteAt l (i + 3)

/-- Little-endian 64-bit pattern at offset `i` (the bits of a `double`). -/
def u64le (l : List Byte) (i : Nat) : Nat := u32le l i + 4294967296 * u32le l (i + 4)

/-- Two's-complement reading of a 32-bit pattern (`int32_t`). -/
def toInt32 (u : Nat) : Int := if u < 2 ^ 31 then (u : Int) else (u : Int) - 2 ^ 32

/-- Little-endian `int32_t` at offset `i`. -/
def i32le (l : List Byte) (i : Nat) : Int := toInt32 (u32le l i)

/-! ## C string comparison -/

/-- `strncmp(a, b, n) == 0`: bytes are compared until `n` are done, a
difference is met, or both strings end in NUL. The literal `b` carries its
terminating NUL. -/
def strncmpEq : Nat → List Byte → List Byte → Bool
  | 0, _, _ => true
  | n + 1, a :: as, b :: bs =>
    if a ≠ b then false else if a = 0 then true else strncmpEq n as bs
  | _ + 1, _, _ => false

/-- `strcmp(a, b) == 0`, for a literal `b` that carries its terminating NUL. -/
def strcmpEq : List Byte → List Byte → Bool
  | a :: as, b :: bs => if a ≠ b then false else if a = 0 then true else strcmpEq as bs
  | _, _ => false

/-- The literal `"LASF"`. -/
def litLASF : List Byte := [76, 65, 83, 70, 0]

/-- The literal `"laszip encoded"`. -/
def litLaszipEncoded : List Byte :=
  [108, 97, 115, 122, 105, 112, 32, 101, 110, 99, 111, 100, 101, 100, 0]

/-- The literal `"laszip"`. -/
def litLaszip : List Byte := [108, 97, 115, 122, 105, 112, 0]

/-! ## `LASHeader` (packed, 227 bytes) -/

/-- `sizeof(LASHeader)` under `#pragma pack(push, 1)`. -/
def sizeofLASHeader : Nat := 227

/-- `header.signature`, bytes 0-3. -/
def LASHeader.signature (h : List Byte) : List Byte := h.take 4
/-- `header.version_major`, byte 24. -/
def LASHeader.version_major (h : List Byte) : Nat := byteAt h 24
/-- `header.version_minor`, byte 25. -/
def LASHeader.version_minor (h : List Byte) : Nat := byteAt h 25
/-- `header.header_size`, bytes 94-95. -/
def LASHeader.header_size (h : List Byte) : Nat := u16le h 94
/-- `header.offset_to_point_data`, bytes 96-99. -/
def LASHeader.offset_to_point_data (h : List Byte) : Nat := u32le h 96
/-- `header.number_of_variable_length_records`, bytes 100-103. -/
def LASHeader.number_of_variable_length_records (h : List Byte) : Nat := u32le h 100
/-- `header.point_data_record_format`, byte 104. -/
def LASHeader.point_data_record_format (h : List Byte) : Nat := byteAt h 104
/-- `header.point_data_record_length`, bytes 105-106. -/
def LASHeader.point_data_record_length (h : List Byte) : Nat := u16le h 105
/-- `header.legacy_number_of_point_records`, bytes 107-110. -/
def LASHeader.legacy_number_of_point_records (h : List Byte) : Nat := u32le h 107
/-- Bits of `header.x_scale_factor`, bytes 131-138. -/
def LASHeader.x_scale_factor (h : List Byte) : Nat := u64le h 131
/-- Bits of `header.y_scale_factor`, bytes 139-146. -/
def LASHeader.y_scale_factor (h : List Byte) : Nat := u64le h 139
/-- Bits of `header.z_scale_factor`, bytes 147-154. -/
def LASHeader.z_scale_factor (h : List Byte) : Nat := u64le h 147
/-- Bits of `header.x_offset`, bytes 155-162. -/
def LASHeader.x_offset (h : List Byte) : Nat := u64le h 155
/-- Bits of `header.y_offset`, bytes 163-170. -/
def LASHeader.y_offset (h : List Byte) : Nat := u64le h 163
/-- Bits of `header.z_offset`, bytes 171-178. -/
def LASHeader.z_offset (h : List Byte) : Nat := u64le h 171

/-! ## `VLRHeader` (packed, 54 bytes) and `LASPointFormat0` (packed, 20 bytes) -/

/-- `sizeof(VLRHeader)`. -/
def sizeofVLRHeader : Nat := 54

/-- `vlr.user_id` as `strcmp` sees it: the bytes from offset 2 on. -/
def VLRHeader.user_id (v : List Byte) : List Byte := v.drop 2
/-- `vlr.record_length_after_header`, bytes 20-21. -/
def VLRHeader.record_length_after_header (v : List Byte) : Nat := u16le v 20

/-- `sizeof(LASPointFormat0)`. -/
def sizeofLASPointFormat0 : Nat := 20

/-- `las_point.x`, bytes 0-3. -/
def LASPointFormat0.x (p : List Byte) : Int := i32le p 0
/-- `las_point.y`, bytes 4-7. -/
def LASPointFormat0.y (p : List Byte) : Int := i32le p 4
/-- `las_point.z`, bytes 8-11. -/
def LASPointFormat0.z (p : List Byte) : Int := i32le p 8
/-- `las_point.intensity`, bytes 12-13. -/
def LASPointFormat0.intensity (p : List Byte) : Nat := u16le p 12
/-- `las_point.classification`, byte 15. -/
def LASPointFormat0.classification (p : List Byte) : Nat := byteAt p 15

/-- The decoded point handed to callers (`struct Point`). -/
structure Point (F : Type) where
  x : F
  y : F
  z : F
  intensity : Nat
  classification : Nat

/-! ## `class LAZDecoder` of `laz_decoder_full.cpp` -/

/-- The private members of `LAZDecoder`; `header_` is the object
representation of the packed `LASHeader`. -/
structure LAZDecoder (F : Type) where
  data_ : List Byte
  header_ : List Byte
  points_ : List (Point F)
  is_loaded_ : Bool
  is_compressed_ : Bool

/-- The constructor: both flags false, `header_` zero-filled by `memset`. -/
def LAZDecoder.new (F : Type) : LAZDecoder F :=
  { data_ := [], header_ := List.replicate sizeofLASHeader 0, points_ := [],
    is_loaded_ := false, is_compressed_ := false }

/-- `LAZDecoder::parseHeader`. -/
def parseHeader {F : Type} (d : LAZDecoder F) : Option (Bool × LAZDecoder F) :=
  if d.data_.length < sizeofLASHeader then some (false, d)
  else
    match readBytes d.data_ 0 sizeofLASHeader with
    | none => none
    | some h =>
      let d1 := { d with header_ := h }
      if !strncmpEq 4 (LASHeader.signature h) litLASF then some (false, d1)
      else
        let fmt := LASHeader.point_data_record_format h
        some (true, { d1 with
          is_compressed_ := (fmt &&& 0x80) != 0
          header_ := h.set 104 (Fin.ofNat (fmt &&& 0x7F)) })

/-- The loop of `LAZDecoder::parseVLRs`: the first argument counts the
iterations that remain, `offset` is the `uint32_t` cursor, `c` the current
`is_compressed_`. -/
def parseVLRsLoop (data : List Byte) : Nat → Nat → Bool → Option Bool
  | 0, _, c => some c
  | n + 1, offset, c =>
    if (offset + sizeofVLRHeader) % 2 ^ 32 > data.length then some c
    else
      match readBytes data offset sizeofVLRHeader with
      | none => none
      | some vlr =>
        let offset1 := (offset + sizeofVLRHeader) % 2 ^ 32
        let c1 :=
          if strcmpEq (VLRHeader.user_id vlr) litLaszipEncoded
              || strcmpEq (VLRHeader.user_id vlr) litLaszip then true else c
        parseVLRsLoop data n
          ((offset1 + VLRHeader.record_length_after_header vlr) % 2 ^ 32) c1

/-- `LAZDecoder::parseVLRs`. -/
def parseVLRs {F : Type} (d : LAZDecoder F) : Option (Bool × LAZDecoder F) :=
  match parseVLRsLoop d.data_ (LASHeader.number_of_variable_length_records d.header_)
      (LASHeader.header_size d.header_) d.is_compressed_ with
  | none => none
  | some c => some (true, { d with is_compressed_ := c })

/-- The `Point` built from one raw record in `readUncompressedPoints`. -/
def mkPoint {F : Type} (ops : DoubleOps F) (h las_point : List Byte) : Point F :=
  { x := ops.add (ops.mul (ops.ofInt (LASPointFormat0.x las_point))
            (ops.ofBits (LASHeader.x_scale_factor h))) (ops.ofBits (LASHeader.x_offset h))
    y := ops.add (ops.mul (ops.ofInt (LASPointFormat0.y las_point))
            (ops.ofBits (LASHeader.y_scale_factor h))) (ops.ofBits (LASHeader.y_offset h))
    z := ops.add (ops.mul (ops.ofInt (LASPointFormat0.z las_point))
            (ops.ofBits (LASHeader.z_scale_factor h))) (ops.ofBits (LASHeader.z_offset h))
    intensity := LASPointFormat0.intensity las_point
    classification := LASPointFormat0.classification las_point }

/-- The loop of `LAZDecoder::readUncompressedPoints`: the first argument counts
the iterations that remain, `offset` is the `uint32_t` cursor, `acc` is
`points_`. The guard adds `point_size` in `unsigned int`. -/
def readPointsLoop {F : Type} (ops : DoubleOps F) (data h : List Byte) (point_size : Nat) :
    Nat → Nat → List (Point F) → Option (List (Point F))
  | 0, _, acc => some acc
  | n + 1, offset, acc =>
    if (offset + point_size) % 2 ^ 32 > data.length then some acc
    else
      match readBytes data offset sizeofLASPointFormat0 with
      | none => none
      | some las_point =>
        readPointsLoop ops data h point_size n ((offset + point_size) % 2 ^ 32)
          (acc ++ [mkPoint ops h las_point])

/-- `std::vector<Point>::max_size()` on wasm32: `sizeof(Point)` is 32 (three
doubles, a `uint16_t`, a `uint8_t`, padding to the alignment 8), and libc++
gives `min(SIZE_MAX / sizeof(Point), PTRDIFF_MAX) = 134217727`. -/
def maxSizePoints : Nat := 134217727

/-- `LAZDecoder::readUncompressedPoints`. `points_.reserve(num_points)` throws
`std::length_error` when `num_points` exceeds `max_size()`: the call does not
return (`none`). -/
def readUncompressedPoints {F : Type} (ops : DoubleOps F) (d : LAZDecoder F) :
    Option (Bool × LAZDecoder F) :=
  if LASHeader.legacy_number_of_point_records d.header_ > maxSizePoints then none
  else
    match readPointsLoop ops d.data_ d.header_ (LASHeader.point_data_record_length d.header_)
        (LASHeader.legacy_number_of_point_records d.header_)
        (LASHeader.offset_to_point_data d.header_) [] with
    | none => none
    | some ps => some (true, { d with points_ := ps })

/-- `LAZDecoder::loadData`: the returned flag and the decoder afterwards, or
`none` when a read left the buffer or `reserve` threw. -/
def loadData {F : Type} (ops : DoubleOps F) (d : LAZDecoder F) (data : List Byte) :
    Option (Bool × LAZDecoder F) :=
  let d0 := { d with data_ := data, is_loaded_ := false }
  match parseHeader d0 with
  | none => none
  | some (false, d1) => some (false, d1)
  | some (true, d1) =>
    match parseVLRs d1 with
    | none => none
    | some (false, d2) => some (false, d2)
    | some (true, d2) =>
      if d2.is_compressed_ then some (false, d2)
      else
        match readUncompressedPoints ops d2 with
        | none => none
        | some (false, d3) => some (false, d3)
        | some (true, d3) => some (true, { d3 with is_loaded_ := true })

/-! ## The point loop on the wasm machine

`memcpy` checks no bounds. On the wasm machine a copy that leaves the vector
reads the linear memory around it and the loop goes on; `loadDataMem` is
`loadData` read that way, with the surrounding memory as a parameter. -/

/-- The byte the machine reads at `data_.data() + i`, the address taken modulo
2^32: inside the vector the vector's own byte, outside it the byte `amb` of the
surrounding linear memory (`amb` is indexed like the vector, from its first
byte). A trap for an address beyond the end of the linear memory is not
modelled. -/
def peek (amb : Nat → Byte) (data : List Byte) (i : Nat) : Byte :=
  if i % 2 ^ 32 < data.length then data.getD (i % 2 ^ 32) 0 else amb (i % 2 ^ 32)

/-- `memcpy(dst, data_.data() + off, n)` on the machine. -/
def copyBytes (amb : Nat → Byte) (data : List Byte) (off n : Nat) : List Byte :=
  (List.range n).map (fun j => peek amb data (off + j))

/-- The loop of `readUncompressedPoints` on the machine: as `readPointsLoop`,
the record being whatever the 20-byte copy finds. -/
def readPointsLoopMem {F : Type} (ops : DoubleOps F) (amb : Nat → Byte) (data h : List Byte)
    (point_size : Nat) : Nat → Nat → List (Point F) → List (Point F)
  | 0, _, acc => acc
  | n + 1, offset, acc =>
    if (offset + point_size) % 2 ^ 32 > data.length then acc
    else
      readPointsLoopMem ops amb data h point_size n ((offset + point_size) % 2 ^ 32)
        (acc ++ [mkPoint ops h (copyBytes amb data offset sizeofLASPointFormat0)])

/-- `LAZDecoder::readUncompressedPoints` on the machine; `none` when `reserve`
throws. -/
def readUncompressedPointsMem {F : Type} (ops : DoubleOps F) (amb : Nat → Byte)
    (d : LAZDecoder F) : Option (Bool × LAZDecoder F) :=
  if LASHeader.legacy_number_of_point_records d.header_ > maxSizePoints then none
  else
    some (true, { d with
      points_ := readPointsLoopMem ops amb d.data_ d.header_
        (LASHeader.point_data_record_length d.header_)
        (LASHeader.legacy_number_of_point_records d.header_)
        (LASHeader.offset_to_point_data d.header_) [] })

/-- `LAZDecoder::loadData` on the machine, `amb` being the linear memory around
`data_` during the call. -/
def loadDataMem {F : Type} (ops : DoubleOps F) (amb : Nat → Byte) (d : LAZDecoder F)
    (data : List Byte) : Option (Bool × LAZDecoder F) :=
  let d0 := { d with data_ := data, is_loaded_ := false }
  match parseHeader d0 with
  | none => none
  | some (false, d1) => some (false, d1)
  | some (true, d1) =>
    match parseVLRs d1 with
    | none => none
    | some (false, d2) => some (false, d2)
    | some (true, d2) =>
      if d2.is_compressed_ then some (false, d2)
      else
        match readUncompressedPointsMem ops amb d2 with
        | none => none
        | some (false, d3) => some (false, d3)
        | some (true, d3) => some (true, { d3 with is_loaded_ := true })

/-- `LAZDecoder::isLoaded`. -/
def isLoaded {F : Type} (d : LAZDecoder F) : Bool := d.is_loaded_
/-- `LAZDecoder::isCompressed`. -/
def isCompressed {F : Type} (d : LAZDecoder F) : Bool := d.is_compressed_
/-- `LAZDecoder::getPointFormat`. -/
def getPointFormat {F : Type} (d : LAZDecoder F) : Nat :=
  LASHeader.point_data_record_format d.header_
/-- `LAZDecoder::getPointCount`: `points_.size()` as `uint32_t`. -/
def getPointCount {F : Type} (d : LAZDecoder F) : Nat := d.points_.length % 2 ^ 32

/-- `LAZDecoder::getPoint`. -/
def getPoint {F : Type} (ops : DoubleOps F) (d : LAZDecoder F) (index : Nat) : Point F :=
  if h : index < d.points_.length then d.points_.get ⟨index, h⟩
  else { x := ops.ofInt 0, y := ops.ofInt 0, z := ops.ofInt 0,
         intensity := 0, classification := 0 }

/-- The value `dist2` of `filterPoints` for one point and one center. -/
def dist2 {F : Type} (ops : DoubleOps F) (point : Point F) (cx cy cz : F) : F :=
  let dx := ops.sub point.x cx
  let dy := ops.sub point.y cy
  let dz := ops.sub point.z cz
  ops.add (ops.add (ops.mul dx dx) (ops.mul dy dy)) (ops.mul dz dz)

/-- The inner loop of `filterPoints` for one point: the list argument is what
is left of `center_x`, the number is the index `i`. The result says whether the
loop pushed the point (and broke off); `center_y[i]` or `center_z[i]` beyond the
end of its vector is an out-of-bounds read (`none`). -/
def centerLoop {F : Type} (ops : DoubleOps F) (point : Point F) (center_y center_z : List F)
    (r2 : F) : List F → Nat → Option Bool
  | [], _ => some false
  | x :: xs, i =>
    match center_y.get? i, center_z.get? i with
    | some y, some z =>
      if ops.le (dist2 ops point x y z) r2 then some true
      else centerLoop ops point center_y center_z r2 xs (i + 1)
    | _, _ => none

/-- The outer loop of `filterPoints`: the points still to visit and the vector
`filtered` built so far. -/
def filterLoop {F : Type} (ops : DoubleOps F) (center_x center_y center_z : List F) (r2 : F) :
    List (Point F) → List (Point F) → Option (List (Point F))
  | [], filtered => some filtered
  | point :: rest, filtered =>
    match centerLoop ops point center_y center_z r2 center_x 0 with
    | none => none
    | some true => filterLoop ops center_x center_y center_z r2 rest (filtered ++ [point])
    | some false => filterLoop ops center_x center_y center_z r2 rest filtered

/-- `LAZDecoder::filterPoints`. -/
def filterPoints {F : Type} (ops : DoubleOps F) (d : LAZDecoder F)
    (center_x center_y center_z : List F) (radius : F) : Option (List (Point F)) :=
  filterLoop ops center_x center_y center_z (ops.mul radius radius) d.points_ []

/-! ## `class LAZDecoder` of `laz_wrapper.cpp` -/

namespace Wrapper

/-- `sizeof(LASHeader)` in `laz_wrapper.cpp`: the struct is not packed, so on
wasm32 `point_data_record_length` is aligned to 2 (one padding byte after
`point_data_format`), `number_of_point_records` to 4 and `x_scale_factor`
to 8 (four padding bytes), which gives 232 bytes. -/
def sizeofLASHeader : Nat := 232

/-- The private members of the wrapper's `LAZDecoder`; `header` is the object
representation of its `LASHeader`. -/
structure LAZDecoder where
  buffer : List Byte
  header : List Byte
  current_point : Nat

/-- The wrapper's `LAZDecoder::loadData`. -/
def loadData (d : LAZDecoder) (data : List Byte) : Option (Bool × LAZDecoder) :=
  let d0 := { d with buffer := data }
  if d0.buffer.length < sizeofLASHeader then some (false, d0)
  else
    match readBytes d0.buffer 0 sizeofLASHeader with
    | none => none
    | some h =>
      let d1 := { d0 with header := h }
      if !strncmpEq 4 (h.take 4) litLASF then some (false, d1)
      else some (true, { d1 with current_point := 0 })

/-- `header.version_major`, byte 24. -/
def LASHeader.version_major (h : List Byte) : Nat := byteAt h 24
/-- `header.version_minor`, byte 25. -/
def LASHeader.version_minor (h : List Byte) : Nat := byteAt h 25
/-- `header.offset_to_point_data`, bytes 96-99. -/
def LASHeader.offset_to_point_data (h : List Byte) : Nat := u32le h 96
/-- `header.point_data_format`, byte 104. -/
def LASHeader.point_data_format (h : List Byte) : Nat := byteAt h 104
/-- `header.point_data_record_length`: byte 105 is padding, the field is bytes
106-107. -/
def LASHeader.point_data_record_length (h : List Byte) : Nat := u16le h 106
/-- `header.number_of_point_records`, bytes 108-111. -/
def LASHeader.number_of_point_records (h : List Byte) : Nat := u32le h 108
/-- Bits of `header.x_scale_factor`: `number_of_points_by_return` ends at byte
131, bytes 132-135 are padding, the field is bytes 136-143. -/
def LASHeader.x_scale_factor (h : List Byte) : Nat := u64le h 136
/-- Bits of `header.y_scale_factor`, bytes 144-151. -/
def LASHeader.y_scale_factor (h : List Byte) : Nat := u64le h 144
/-- Bits of `header.z_scale_factor`, bytes 152-159. -/
def LASHeader.z_scale_factor (h : List Byte) : Nat := u64le h 152
/-- Bits of `header.x_offset`, bytes 160-167. -/
def LASHeader.x_offset (h : List Byte) : Nat := u64le h 160
/-- Bits of `header.y_offset`, bytes 168-175. -/
def LASHeader.y_offset (h : List Byte) : Nat := u64le h 168
/-- Bits of `header.z_offset`, bytes 176-183. -/
def LASHeader.z_offset (h : List Byte) : Nat := u64le h 176

/-- `sizeof(LASPoint)`: the bit-fields share byte 14, the layout is that of
`LASPointFormat0`. -/
def sizeofLASPoint : Nat := 20

/-- The wrapper's `LAZDecoder::getVersionMajor`. -/
def getVersionMajor (d : LAZDecoder) : Nat := LASHeader.version_major d.header
/-- The wrapper's `LAZDecoder::getVersionMinor`. -/
def getVersionMinor (d : LAZDecoder) : Nat := LASHeader.version_minor d.header
/-- The wrapper's `LAZDecoder::getPointFormat`. -/
def getPointFormat (d : LAZDecoder) : Nat := LASHeader.point_data_format d.header
/-- The wrapper's `LAZDecoder::getPointCount`: the `uint32_t` field returned as
`int`. -/
def getPointCount (d : LAZDecoder) : Int := toInt32 (LASHeader.number_of_point_records d.header)

/-- The wrapper's `LAZDecoder::readNextPoint`. The argument `point` is the
object representation of the caller's `LASPoint`; the result is the returned
flag, the decoder afterwards and the caller's `LASPoint` afterwards. `offset`
is a `size_t`, so the product, the sum and `offset + sizeof(LASPoint)` are taken
modulo 2^32. -/
def readNextPoint (d : LAZDecoder) (point : List Byte) :
    Option (Bool × LAZDecoder × List Byte) :=
  if d.current_point ≥ LASHeader.number_of_point_records d.header then some (false, d, point)
  else
    let offset := (LASHeader.offset_to_point_data d.header +
      (d.current_point * LASHeader.point_data_record_length d.header) % 2 ^ 32) % 2 ^ 32
    if (offset + sizeofLASPoint) % 2 ^ 32 > d.buffer.length then some (false, d, point)
    else
      match readBytes d.buffer offset sizeofLASPoint with
      | none => none
      | some p => some (true, { d with current_point := (d.current_point + 1) % 2 ^ 32 }, p)

/-- The wrapper's `LAZDecoder::getWorldX`. -/
def getWorldX {F : Type} (ops : DoubleOps F) (d : LAZDecoder) (x : Int) : F :=
  ops.add (ops.mul (ops.ofInt x) (ops.ofBits (LASHeader.x_scale_factor d.header)))
    (ops.ofBits (LASHeader.x_offset d.header))

/-- The wrapper's `LAZDecoder::getWorldY`. -/
def getWorldY {F : Type} (ops : DoubleOps F) (d : LAZDecoder) (y : Int) : F :=
  ops.add (ops.mul (ops.ofInt y) (ops.ofBits (LASHeader.y_scale_factor d.header)))
    (ops.ofBits (LASHeader.y_offset d.header))

/-- The wrapper's `LAZDecoder::getWorldZ`. -/
def getWorldZ {F : Type} (ops : DoubleOps F) (d : LAZDecoder) (z : Int) : F :=
  ops.add (ops.mul (ops.ofInt z) (ops.ofBits (LASHeader.z_scale_factor d.header)))
    (ops.ofBits (LASHeader.z_offset d.header))

end Wrapper

/-! ## The VLR directory as the specification describes it -/

/-- Offset of the `k`-th VLR header of a directory that starts at `o`: `o`
plus, for every earlier entry, its 54-byte header and the
`record_length_after_header` it declares (bytes 20-21 of the entry). Plain
naturals, no wrap-around. -/
def vlrOffset (b : List Byte) (o : Nat) : Nat → Nat
  | 0 => o
  | k + 1 => vlrOffset b o k + 54 + u16le b (vlrOffset b o k + 20)

/-- The walk reaches entry `k`: the 54-byte headers of the entries `0..k` all
lie wholly inside the buffer. -/
def VlrReached (b : List Byte) (o k : Nat) : Prop :=
  ∀ j, j ≤ k → vlrOffset b o j + 54 ≤ b.length

instance (b : List Byte) (o k : Nat) : Decidable (VlrReached b o k) := by
  unfold VlrReached; infer_instance

/-- The `user_id` field (bytes 2-17) of the VLR header at `off` holds the
NUL-terminated string `lit` (`lit` carries the NUL). -/
def UserIdIs (b : List Byte) (off : Nat) (lit : List Byte) : Prop :=
  (b.drop (off + 2)).take lit.length = lit

instance (b : List Byte) (off : Nat) (lit : List Byte) : Decidable (UserIdIs b off lit) := by
  unfold UserIdIs; infer_instance

/-- Some entry `k < n` that the walk from `o` reaches carries one of the two
LAZ identifiers. -/
def VlrMarker (b : List Byte) (o n : Nat) : Prop :=
  ∃ k, k < n ∧ VlrReached b o k ∧
    (UserIdIs b (vlrOffset b o k) litLaszipEncoded ∨ UserIdIs b (vlrOffset b o k) litLaszip)

instance (b : List Byte) (o n : Nat) : Decidable (VlrMarker b o n) := by
  unfold VlrMarker; infer_instance

/-- The contents of `header_` after a successful `parseHeader` on `b`: the
first 227 bytes of `b`, bit 7 of the point-format byte (byte 104) cleared. -/
def maskedHeader (b : List Byte) : List Byte :=
  (b.take 227).set 104 (Fin.ofNat (byteAt b 104 &&& 0x7F))

/-! ## The point region as the specification describes it -/

/-- The point decoded from the 20-byte record at offset `o` of `b`, written
out on the bytes of `b`: raw x, y, z are the signed 32-bit little-endian values
at `o`, `o+4`, `o+8`, scaled and shifted by the header doubles at bytes 131-178;
intensity is the 16-bit value at `o+12`, classification the byte at `o+15`. -/
def decodedPointAt {F : Type} (ops : DoubleOps F) (b : List Byte) (o : Nat) : Point F :=
  { x := ops.add (ops.mul (ops.ofInt (i32le b o)) (ops.ofBits (u64le b 131)))
      (ops.ofBits (u64le b 155))
    y := ops.add (ops.mul (ops.ofInt (i32le b (o + 4))) (ops.ofBits (u64le b 139)))
      (ops.ofBits (u64le b 163))
    z := ops.add (ops.mul (ops.ofInt (i32le b (o + 8))) (ops.ofBits (u64le b 147)))
      (ops.ofBits (u64le b 171))
    intensity := u16le b (o + 12)
    classification := byteAt b (o + 15) }

/-- The first `m` points of the region that starts at `o` with stride `prl`. -/
def recordPoints {F : Type} (ops : DoubleOps F) (b : List Byte) (o prl m : Nat) :
    List (Point F) :=
  (List.range m).map (fun i => decodedPointAt ops b (o + i * prl))

/-- The 20 decoded bytes of each of the first `n` records lie inside `b`. -/
def FixedWidthRecordsFit (b : List Byte) (n : Nat) : Prop :=
  ∀ i, i < n → u32le b 96 + i * u16le b 105 + 20 ≤ b.length

instance (b : List Byte) (n : Nat) : Decidable (FixedWidthRecordsFit b n) := by
  unfold FixedWidthRecordsFit; infer_instance

/-- The full declared stride of each of the first `n` records lies inside `b`. -/
def StrideRecordsFit (b : List Byte) (n : Nat) : Prop :=
  ∀ i, i < n → u32le b 96 + i * u16le b 105 + u16le b 105 ≤ b.length

instance (b : List Byte) (n : Nat) : Decidable (StrideRecordsFit b n) := by
  unfold StrideRecordsFit; infer_instance

/-- The number `m` is the largest `n ≤ count` with `P n`. -/
def IsLargestCount (P : Nat → Prop) (count m : Nat) : Prop :=
  m ≤ count ∧ P m ∧ ∀ n, n ≤ count → P n → n ≤ m

/-! ## Exact arithmetic -/

/-- Exact rational arithmetic in place of `double`: `dec` gives the value of a
64-bit pattern, conversion from `int32_t` and the four operations are exact. -/
def exactOps (dec : Nat → ℚ) : DoubleOps ℚ :=
  { ofBits := dec, ofInt := fun i => (i : ℚ), add := fun a b => a + b,
    sub := fun a b => a - b, mul := fun a b => a * b, le := fun a b => decide (a ≤ b) }

/-! ## The spatial filter as the specification describes it -/

/-- The point lies in the closed ball of radius `r` around the center `c`:
squared distance at most `r * r`. -/
def inSphere {F : Type} (ops : DoubleOps F) (p : Point F) (r : F) (c : F × F × F) : Bool :=
  ops.le (dist2 ops p c.1 c.2.1 c.2.2) (ops.mul r r)

/-- The point lies in the ball around at least one of the centers
`(cx[i], cy[i], cz[i])`. -/
def inSomeSphere {F : Type} (ops : DoubleOps F) (cx cy cz : List F) (r : F) (p : Point F) :
    Bool :=
  (List.zip cx (List.zip cy cz)).any (inSphere ops p r)

/-! ## Sequences of loads -/

/-- The decoder after `loadData` has been called on each buffer of the list in
turn, whatever each call returned. -/
def loadSequence {F : Type} (ops : DoubleOps F) :
    LAZDecoder F → List (List Byte) → Option (LAZDecoder F)
  | d, [] => some d
  | d, b :: bs =>
    match loadData ops d b with
    | none => none
    | some (_, d1) => loadSequence ops d1 bs

/-! ## Concrete buffers used as test inputs -/

/-- Little-endian bytes of a `uint16_t`. -/
def le16 (n : Nat) : List Byte := [Fin.ofNat n, Fin.ofNat (n / 256)]

/-- Little-endian bytes of a `uint32_t`. -/
def le32 (n : Nat) : List Byte :=
  [Fin.ofNat n, Fin.ofNat (n / 256), Fin.ofNat (n / 65536), Fin.ofNat (n / 16777216)]

/-- A 227-byte header with signature "LASF", the given `header_size`,
`offset_to_point_data`, VLR count, point-format byte, `point_data_record_length`
and point count; every other byte is zero. -/
def sampleHeader (hs off vlrs fmt prl cnt : Nat) : List Byte :=
  [76, 65, 83, 70] ++ List.replicate 90 0 ++ le16 hs ++ le32 off ++ le32 vlrs ++
    [Fin.ofNat fmt] ++ le16 prl ++ le32 cnt ++ List.replicate 116 0

/-- Doubles read as integers: a stand-in arithmetic for running the decoder on
inputs where the coordinates do not matter. -/
def intOps : DoubleOps Int :=
  { ofBits := fun n => (n : Int), ofInt := fun i => i, add := fun a b => a + b,
    sub := fun a b => a - b, mul := fun a b => a * b, le := fun a b => decide (a ≤ b) }

/-- An uncompressed file with one 20-byte point record after the header. -/
def onePointFile : List Byte := sampleHeader 227 227 0 0 20 1 ++ List.replicate 20 1

/-- An uncompressed file with two complete records of stride 30 (20 decoded
bytes and 10 extra bytes each). -/
def wideStrideFile : List Byte := sampleHeader 227 227 0 0 30 2 ++ List.replicate 60 1

/-- An uncompressed file that declares one record of stride 30 and holds only
its first 20 bytes. -/
def partialStrideFile : List Byte := sampleHeader 227 227 0 0 30 1 ++ List.replicate 20 1

/-- An uncompressed file that declares one record of stride 0 and holds 10
bytes after the header. -/
def zeroStrideFile : List Byte := sampleHeader 227 227 0 0 0 1 ++ List.replicate 10 1

/-- An uncompressed file whose `offset_to_point_data` is `0xFFFFFFF0`, with one
record of stride 32 declared and 40 bytes after the header. -/
def wrapOffsetFile : List Byte :=
  sampleHeader 227 4294967280 0 0 32 1 ++ List.replicate 40 1

/-- A file that is valid and uncompressed except for its signature "LASX":
one in-range 20-byte point record follows the header. -/
def badSignatureFile : List Byte :=
  [76, 65, 83, 88] ++ (sampleHeader 227 227 0 0 20 1).drop 4 ++ List.replicate 20 1

/-- An uncompressed-looking file (format byte 0) whose single VLR has
`user_id` "laszip": 227 header bytes, then one 54-byte VLR header. -/
def laszipVlrFile : List Byte :=
  sampleHeader 227 281 1 0 20 0 ++ [0, 0] ++ litLaszip ++ List.replicate 45 0

/-- A 227-byte file whose `offset_to_point_data` (80) points into the header:
with stride 40, record 0 is bytes 80-99 and its extra bytes are 100-119, which
hold the point-format byte and the low byte (107) of the point count. -/
def headerOverlapFile : List Byte := sampleHeader 227 80 0 0 40 1

/-- A file whose VLR directory (`header_size` 250, one entry) lies inside the
point region (`offset_to_point_data` 227, stride 60): the `user_id` of the VLR
is "laszip" followed by a byte 1 at index 258, an extra byte of record 0. -/
def vlrOverlapFile : List Byte :=
  sampleHeader 250 227 1 0 60 1 ++ List.replicate 25 0 ++
    [108, 97, 115, 122, 105, 112, 1] ++ List.replicate 45 0

/-- An uncompressed file that declares three records of stride 0 and holds 20
bytes after the header: the same record is decoded three times. -/
def repeatFile : List Byte := sampleHeader 227 227 0 0 0 3 ++ List.replicate 20 1

/-- A decoder that holds one point, (1, 2, 3) with intensity 4 and
classification 5. -/
def onePointDecoder : LAZDecoder Int :=
  { LAZDecoder.new Int with
    points_ := [{ x := 1, y := 2, z := 3, intensity := 4, classification := 5 }] }

/-- The point (0, 0, 0) with intensity 0 and classification 0, over the
rationals. -/
def originPoint : Point ℚ := { x := 0, y := 0, z := 0, intensity := 0, classification := 0 }

/-- A decoder (exact arithmetic) that holds the single point `originPoint`. -/
def originDecoder : LAZDecoder ℚ := { LAZDecoder.new ℚ with points_ := [originPoint] }

/-- Values for the two patterns of the scale scenario: the `double` nearest to
0.01 (`0x3F847AE147AE147B`) is read as 1/100, the pattern of 100.0
(`0x4059000000000000`) as 100; every other pattern is read as 0. -/
def scenarioValue (bits : Nat) : ℚ :=
  if bits = 0x3F847AE147AE147B then 1 / 100
  else if bits = 0x4059000000000000 then 100
  else 0

/-- Little-endian bytes of a 64-bit pattern. -/
def le64 (n : Nat) : List Byte := le32 n ++ le32 (n / 4294967296)

/-- The scale scenario as a file: `x_scale_factor` holds the `double` nearest
to 0.01, `x_offset` holds 100.0, and the single point record has raw x = 500. -/
def scenarioFile : List Byte :=
  (sampleHeader 227 227 0 0 20 1).take 131 ++ le64 0x3F847AE147AE147B ++
    List.replicate 16 0 ++ le64 0x4059000000000000 ++ List.replicate 64 0 ++
    le32 500 ++ List.replicate 16 0

/-- A wrapper decoder whose (unpacked) header holds the `double` nearest to
0.01 in `x_scale_factor` (bytes 136-143) and 100.0 in `x_offset` (bytes
160-167). -/
def scenarioWrapper : Wrapper.LAZDecoder :=
  { buffer := []
    header := List.replicate 136 0 ++ le64 0x3F847AE147AE147B ++ List.replicate 16 0 ++
      le64 0x4059000000000000 ++ List.replicate 64 0
    current_point := 0 }

/-- A 227-byte buffer with signature "LASX" and point-format byte `0x83`. -/
def highBitBadSignatureFile : List Byte :=
  [76, 65, 83, 88] ++ (sampleHeader 227 227 0 0x83 20 0).drop 4

/-- A 227-byte file with a valid header, point-format byte 3 and no points. -/
def formatThreeFile : List Byte := sampleHeader 227 227 0 3 20 0

/-- A 247-byte file with `offset_to_point_data = 0xFFFFFFF0` and 20 bytes after
the header; bytes 107-110 hold 257, so that the packed point count is 257 and
the wrapper's `number_of_point_records` (bytes 108-111) is 1. -/
def wrapReaderFile : List Byte :=
  sampleHeader 227 4294967280 0 0 20 257 ++ List.replicate 20 1

/-- A wrapper decoder as constructed, with a zero-filled header. -/
def freshWrapper : Wrapper.LAZDecoder :=
  { buffer := [], header := List.replicate 232 0, current_point := 0 }

/-- A 227-byte uncompressed file (header only, no point data) that declares
4294967295 records of stride 20. -/
def hugeCountFile : List Byte := sampleHeader 227 227 0 0 20 4294967295

/-- Linear memory that holds the byte 0 everywhere around the vector. -/
def zeroMemory : Nat → Byte := fun _ => 0

/-- Linear memory that holds the byte 1 everywhere around the vector. -/
def oneMemory : Nat → Byte := fun _ => 1

/-! ## Basic facts -/

set_option maxRecDepth 100000

theorem strncmpEq_LASF (h : List Byte) (hlen : 4 ≤ h.length) :
    strncmpEq 4 (h.take 4) litLASF = true ↔ h.take 4 = [76, 65, 83, 70] := by
  match h, hlen with
  | a :: b :: c :: d :: rest, _ =>
    simp only [List.take, litLASF, strncmpEq]
    by_cases ha : a = 76 <;> by_cases hb : b = 65 <;> by_cases hc : c = 83 <;>
      by_cases hd : d = 70 <;> simp_all

theorem readBytes_eq_some {data : List Byte} {off n : Nat} (h : off + n ≤ data.length) :
    readBytes data off n = some ((data.drop off).take n) := by
  simp [readBytes, h]

theorem readBytes_eq_none {data : List Byte} {off n : Nat} (h : data.length < off + n) :
    readBytes data off n = none := by
  simp [readBytes]; omega

theorem parseHeader_short {F : Type} (d : LAZDecoder F) (h : d.data_.length < 227) :
    parseHeader d = some (false, d) := by
  simp [parseHeader, sizeofLASHeader, h]

theorem parseHeader_badSignature {F : Type} (d : LAZDecoder F) (h : 227 ≤ d.data_.length)
    (hsig : d.data_.take 4 ≠ [76, 65, 83, 70]) :
    parseHeader d = some (false, { d with header_ := d.data_.take 227 }) := by
  have h1 : ¬ d.data_.length < 227 := by omega
  have h2 : readBytes d.data_ 0 227 = some (d.data_.take 227) := by
    rw [readBytes_eq_some (by omega)]; simp
  have h3 : strncmpEq 4 ((d.data_.take 227).take 4) litLASF = false := by
    have : (d.data_.take 227).take 4 = d.data_.take 4 := by
      rw [List.take_take]; simp
    rw [this]
    cases hc : strncmpEq 4 (d.data_.take 4) litLASF with
    | false => rfl
    | true => exact absurd ((strncmpEq_LASF _ (by omega)).1 hc) hsig
  simp [parseHeader, sizeofLASHeader, h1, h2, LASHeader.signature, h3]

theorem loadData_short {F : Type} (ops : DoubleOps F) (d : LAZDecoder F) (b : List Byte)
    (h : b.length < 227) :
    loadData ops d b = some (false, { d with data_ := b, is_loaded_ := false }) := by
  simp [loadData, parseHeader_short ({ d with data_ := b, is_loaded_ := false }) h]

theorem loadData_badSignature {F : Type} (ops : DoubleOps F) (d : LAZDecoder F)
    (b : List Byte) (h : 227 ≤ b.length) (hsig : b.take 4 ≠ [76, 65, 83, 70]) :
    loadData ops d b
      = some (false, { d with data_ := b, is_loaded_ := false, header_ := b.take 227 }) := by
  simp only [loadData]
  rw [parseHeader_badSignature _ h hsig]

/-- C1. A buffer shorter than the 227-byte header makes `loadData` return
false without reading any byte; the decoder is then not loaded, and a freshly
constructed decoder still reports zero points. -/
theorem C1_short_buffer_rejected {F : Type} (ops : DoubleOps F) (d : LAZDecoder F)
    (b : List Byte) (h : b.length < 227) :
    (∃ d1, loadData ops d b = some (false, d1) ∧ isLoaded d1 = false) ∧
    (∃ d1, loadData ops (LAZDecoder.new F) b = some (false, d1) ∧ getPointCount d1 = 0) := by
  exact ⟨⟨_, loadData_short ops d b h, rfl⟩, ⟨_, loadData_short ops _ b h, rfl⟩⟩

theorem C1_short_buffer_rejected_witness :
    ([76, 65, 83] : List Byte).length < 227 ∧
    ((∃ d1, loadData intOps (LAZDecoder.new Int) [76, 65, 83] = some (false, d1)
        ∧ isLoaded d1 = false) ∧
     (∃ d1, loadData intOps (LAZDecoder.new Int) [76, 65, 83] = some (false, d1)
        ∧ getPointCount d1 = 0)) :=
  ⟨by decide, C1_short_buffer_rejected intOps (LAZDecoder.new Int) [76, 65, 83] (by decide)⟩

/-- C2. A buffer of at least header size whose first four bytes are not "LASF"
makes `loadData` return false and leaves the decoder not loaded, whatever the
other bytes are; the loader of `laz_wrapper.cpp` returns false as well. -/
theorem C2_bad_signature_rejected {F : Type} (ops : DoubleOps F) (d : LAZDecoder F)
    (w : Wrapper.LAZDecoder) (b : List Byte) (h : 227 ≤ b.length)
    (hsig : b.take 4 ≠ [76, 65, 83, 70]) :
    (∃ d1, loadData ops d b = some (false, d1) ∧ isLoaded d1 = false) ∧
    (∃ w1, Wrapper.loadData w b = some (false, w1)) := by
  constructor
  · exact ⟨_, loadData_badSignature ops d b h hsig, rfl⟩
  · by_cases hw : b.length < 232
    · exact ⟨{ w with buffer := b },
        by simp [Wrapper.loadData, Wrapper.sizeofLASHeader, hw]⟩
    · have h2 : readBytes b 0 232 = some (b.take 232) := by
        rw [readBytes_eq_some (by omega)]; simp
      have h3 : strncmpEq 4 ((b.take 232).take 4) litLASF = false := by
        have : (b.take 232).take 4 = b.take 4 := by
          rw [List.take_take]; simp
        rw [this]
        cases hc : strncmpEq 4 (b.take 4) litLASF with
        | false => rfl
        | true => exact absurd ((strncmpEq_LASF _ (by omega)).1 hc) hsig
      exact ⟨{ w with buffer := b, header := b.take 232 },
        by simp [Wrapper.loadData, Wrapper.sizeofLASHeader, hw, h2, h3]⟩

theorem byteAt_take {l : List Byte} {n i : Nat} (h : i < n) :
    byteAt (l.take n) i = byteAt l i := by
  unfold byteAt
  rw [List.getD_eq_getElem?_getD, List.getD_eq_getElem?_getD, List.getElem?_take_of_lt h]

theorem byteAt_drop (l : List Byte) (o i : Nat) :
    byteAt (l.drop o) i = byteAt l (o + i) := by
  unfold byteAt
  rw [List.getD_eq_getElem?_getD, List.getD_eq_getElem?_getD, List.getElem?_drop]

theorem byteAt_set_ne {l : List Byte} {j i : Nat} (v : Byte) (h : j ≠ i) :
    byteAt (l.set j v) i = byteAt l i := by
  unfold byteAt
  rw [List.getD_eq_getElem?_getD, List.getD_eq_getElem?_getD, List.getElem?_set_ne h]

theorem byteAt_lt (l : List Byte) (i : Nat) : byteAt l i < 256 := (l.getD i 0).isLt

theorem u16le_lt (l : List Byte) (i : Nat) : u16le l i < 65536 := by
  have h1 := byteAt_lt l i
  have h2 := byteAt_lt l (i + 1)
  unfold u16le; omega

theorem u32le_lt (l : List Byte) (i : Nat) : u32le l i < 2 ^ 32 := by
  have h1 := byteAt_lt l i
  have h2 := byteAt_lt l (i + 1)
  have h3 := byteAt_lt l (i + 2)
  have h4 := byteAt_lt l (i + 3)
  unfold u32le; omega

/-- The bytes a successful `parseHeader` leaves in `header_`: the first 227
bytes of the buffer with bit 7 of byte 104 cleared. -/
theorem parseHeader_ok {F : Type} (d : LAZDecoder F) (h : 227 ≤ d.data_.length)
    (hsig : d.data_.take 4 = [76, 65, 83, 70]) :
    parseHeader d = some (true, { d with
      is_compressed_ := (byteAt d.data_ 104 &&& 0x80) != 0
      header_ := maskedHeader d.data_ }) := by
  have h1 : ¬ d.data_.length < 227 := by omega
  have h2 : readBytes d.data_ 0 227 = some (d.data_.take 227) := by
    rw [readBytes_eq_some (by omega)]; simp
  have h3 : strncmpEq 4 ((d.data_.take 227).take 4) litLASF = true := by
    have : (d.data_.take 227).take 4 = d.data_.take 4 := by
      rw [List.take_take]; simp
    rw [this]
    exact (strncmpEq_LASF _ (by omega)).2 hsig
  have h4 : byteAt (d.data_.take 227) 104 = byteAt d.data_ 104 := byteAt_take (by omega)
  simp [parseHeader, sizeofLASHeader, h1, h2, LASHeader.signature, h3,
    LASHeader.point_data_record_format, h4, maskedHeader]

theorem C2_bad_signature_rejected_witness :
    227 ≤ badSignatureFile.length ∧ badSignatureFile.take 4 ≠ [76, 65, 83, 70] ∧
    ((∃ d1, loadData intOps (LAZDecoder.new Int) badSignatureFile = some (false, d1)
        ∧ isLoaded d1 = false) ∧
     (∃ w1, Wrapper.loadData ⟨[], [], 0⟩ badSignatureFile = some (false, w1))) :=
  ⟨by decide, by decide,
    C2_bad_signature_rejected intOps (LAZDecoder.new Int) ⟨[], [], 0⟩ badSignatureFile
      (by decide) (by decide)⟩

/-! ## The VLR walk -/

theorem strcmpEq_iff (l : List Byte) (hl : ∀ x ∈ l, x ≠ 0) (a : List Byte) :
    strcmpEq a (l ++ [0]) = true ↔ a.take (l.length + 1) = l ++ [0] := by
  induction l generalizing a with
  | nil =>
    cases a with
    | nil => simp [strcmpEq]
    | cons x as =>
      by_cases hx : x = 0 <;> simp [strcmpEq, hx]
  | cons y ys ih =>
    have hy : y ≠ 0 := hl y (by simp)
    have ih1 := ih (fun x hx => hl x (by simp [hx]))
    cases a with
    | nil => simp [strcmpEq]
    | cons x as =>
      by_cases hxy : x = y
      · subst hxy
        simp [strcmpEq, hy, ih1 as]
      · simp [strcmpEq, hxy]

theorem strcmpEq_laszip (a : List Byte) :
    strcmpEq a litLaszip = true ↔ a.take 7 = litLaszip :=
  strcmpEq_iff [108, 97, 115, 122, 105, 112] (by simp) a

theorem strcmpEq_laszipEncoded (a : List Byte) :
    strcmpEq a litLaszipEncoded = true ↔ a.take 15 = litLaszipEncoded :=
  strcmpEq_iff [108, 97, 115, 122, 105, 112, 32, 101, 110, 99, 111, 100, 101, 100]
    (by simp) a

theorem user_id_take (data : List Byte) (o n : Nat) (hn : n + 2 ≤ 54) :
    (VLRHeader.user_id ((data.drop o).take 54)).take n = (data.drop (o + 2)).take n := by
  unfold VLRHeader.user_id
  rw [List.drop_take, List.take_take, List.drop_drop]
  congr 1
  omega

theorem vlrOffset_succ (b : List Byte) (o k : Nat) :
    vlrOffset b o (k + 1) = vlrOffset b (o + 54 + u16le b (o + 20)) k := by
  induction k with
  | zero => rfl
  | succ k ih =>
    show vlrOffset b o (k + 1) + 54 + u16le b (vlrOffset b o (k + 1) + 20) = _
    rw [ih]; rfl

theorem vlrReached_succ (b : List Byte) (o k : Nat) :
    VlrReached b o (k + 1) ↔
      o + 54 ≤ b.length ∧ VlrReached b (o + 54 + u16le b (o + 20)) k := by
  constructor
  · intro h
    refine ⟨h 0 (by omega), fun j hj => ?_⟩
    rw [← vlrOffset_succ]
    exact h (j + 1) (by omega)
  · rintro ⟨h0, h1⟩ j hj
    cases j with
    | zero => exact h0
    | succ j => rw [vlrOffset_succ]; exact h1 j (by omega)

theorem vlrMarker_zero (b : List Byte) (o : Nat) : ¬ VlrMarker b o 0 := by
  rintro ⟨k, hk, _⟩; omega

theorem vlrMarker_succ (b : List Byte) (o n : Nat) :
    VlrMarker b o (n + 1) ↔
      o + 54 ≤ b.length ∧
        ((UserIdIs b o litLaszipEncoded ∨ UserIdIs b o litLaszip) ∨
          VlrMarker b (o + 54 + u16le b (o + 20)) n) := by
  constructor
  · rintro ⟨k, hk, hr, hm⟩
    cases k with
    | zero => exact ⟨hr 0 (by omega), Or.inl hm⟩
    | succ k =>
      have h2 := (vlrReached_succ b o k).1 hr
      refine ⟨h2.1, Or.inr ⟨k, by omega, h2.2, ?_⟩⟩
      rw [← vlrOffset_succ]; exact hm
  · rintro ⟨h0, hm | ⟨k, hk, hr, hm⟩⟩
    · refine ⟨0, by omega, fun j hj => ?_, hm⟩
      have : j = 0 := by omega
      subst this; exact h0
    · refine ⟨k + 1, by omega, (vlrReached_succ b o k).2 ⟨h0, hr⟩, ?_⟩
      rw [vlrOffset_succ]; exact hm

/-- The loop of `parseVLRs` on a buffer a `std::vector` can hold: every header
it copies lies inside the buffer, and the flag it returns is the incoming flag
or-ed with "some reached entry carries a LAZ identifier". -/
theorem parseVLRsLoop_spec (data : List Byte) (hfit : FitsVector data) (n : Nat) :
    ∀ (o : Nat) (c : Bool), o < 2 ^ 31 + 65536 →
      ∃ c1, parseVLRsLoop data n o c = some c1 ∧
        (c1 = true ↔ (c = true ∨ VlrMarker data o n)) := by
  unfold FitsVector at hfit
  induction n with
  | zero =>
    intro o c _
    exact ⟨c, rfl, by simp [vlrMarker_zero]⟩
  | succ n ih =>
    intro o c ho
    have hmod : (o + 54) % 2 ^ 32 = o + 54 := Nat.mod_eq_of_lt (by omega)
    by_cases hb : o + 54 ≤ data.length
    · have hrl : VLRHeader.record_length_after_header ((data.drop o).take 54)
          = u16le data (o + 20) := by
        unfold VLRHeader.record_length_after_header u16le
        rw [byteAt_take (by omega), byteAt_take (by omega), byteAt_drop, byteAt_drop]
      have hlt := u16le_lt data (o + 20)
      have hmod2 : (o + 54 + u16le data (o + 20)) % 2 ^ 32 = o + 54 + u16le data (o + 20) :=
        Nat.mod_eq_of_lt (by omega)
      have h1 : strcmpEq (VLRHeader.user_id ((data.drop o).take 54)) litLaszipEncoded = true
          ↔ UserIdIs data o litLaszipEncoded := by
        rw [strcmpEq_laszipEncoded, user_id_take data o 15 (by omega)]; rfl
      have h2 : strcmpEq (VLRHeader.user_id ((data.drop o).take 54)) litLaszip = true
          ↔ UserIdIs data o litLaszip := by
        rw [strcmpEq_laszip, user_id_take data o 7 (by omega)]; rfl
      obtain ⟨c1, hc1, hiff⟩ := ih (o + 54 + u16le data (o + 20))
        (if strcmpEq (VLRHeader.user_id ((data.drop o).take 54)) litLaszipEncoded
              || strcmpEq (VLRHeader.user_id ((data.drop o).take 54)) litLaszip
          then true else c) (by omega)
      refine ⟨c1, ?_, ?_⟩
      · simp only [parseVLRsLoop, sizeofVLRHeader, hmod, readBytes_eq_some hb, hrl, hmod2]
        rw [if_neg (by omega)]
        exact hc1
      · rw [hiff, vlrMarker_succ]
        by_cases m1 : strcmpEq (VLRHeader.user_id ((data.drop o).take 54)) litLaszipEncoded = true
        · have := h1.1 m1
          simp [m1, this, hb]
        · by_cases m2 : strcmpEq (VLRHeader.user_id ((data.drop o).take 54)) litLaszip = true
          · have := h2.1 m2
            simp [m2, this, hb]
          · have n1 : ¬ UserIdIs data o litLaszipEncoded := fun h => m1 (h1.2 h)
            have n2 : ¬ UserIdIs data o litLaszip := fun h => m2 (h2.2 h)
            simp [m1, m2, n1, n2, hb]
    · refine ⟨c, ?_, ?_⟩
      · simp only [parseVLRsLoop, sizeofVLRHeader, hmod]
        rw [if_pos (by omega)]
      · rw [vlrMarker_succ]
        simp [hb]

/-! ## `loadData` on a buffer with a valid header -/

theorem and_0x80_eq_testBit (n : Nat) : ((n &&& 0x80) != 0) = n.testBit 7 := by
  have : (0x80 : Nat) = 2 ^ 7 := by norm_num
  rw [this, Nat.and_two_pow]
  cases h : n.testBit 7 <;> simp

theorem maskedHeader_byteAt (b : List Byte) {i : Nat} (hi : i < 227) (hne : i ≠ 104) :
    byteAt (maskedHeader b) i = byteAt b i := by
  unfold maskedHeader
  rw [byteAt_set_ne _ (Ne.symm hne), byteAt_take hi]

theorem maskedHeader_u16le (b : List Byte) {i : Nat} (hi : i + 1 < 227)
    (h1 : i ≠ 104) (h2 : i + 1 ≠ 104) : u16le (maskedHeader b) i = u16le b i := by
  unfold u16le
  rw [maskedHeader_byteAt b (by omega) h1, maskedHeader_byteAt b hi h2]

theorem maskedHeader_u32le (b : List Byte) {i : Nat} (hi : i + 3 < 227)
    (h1 : i + 3 < 104 ∨ 104 < i) : u32le (maskedHeader b) i = u32le b i := by
  unfold u32le
  rw [maskedHeader_byteAt b (by omega) (by omega), maskedHeader_byteAt b (by omega) (by omega),
    maskedHeader_byteAt b (by omega) (by omega), maskedHeader_byteAt b (by omega) (by omega)]

theorem maskedHeader_u64le (b : List Byte) {i : Nat} (hi : i + 7 < 227) (h1 : 104 < i) :
    u64le (maskedHeader b) i = u64le b i := by
  unfold u64le
  rw [maskedHeader_u32le b (by omega) (by omega), maskedHeader_u32le b (by omega) (by omega)]

/-- The steps of `loadData` after the header is accepted, on any buffer. -/
theorem loadData_header_ok {F : Type} (ops : DoubleOps F) (d : LAZDecoder F) (b : List Byte)
    (hlen : 227 ≤ b.length) (hsig : b.take 4 = [76, 65, 83, 70]) :
    loadData ops d b =
      match parseVLRsLoop b (u32le b 100) (u16le b 94) ((byteAt b 104 &&& 0x80) != 0) with
      | none => none
      | some true =>
        some (false, { data_ := b, header_ := maskedHeader b, points_ := d.points_,
                       is_loaded_ := false, is_compressed_ := true })
      | some false =>
        if u32le b 107 > maxSizePoints then none
        else
          match readPointsLoop ops b (maskedHeader b) (u16le b 105) (u32le b 107)
              (u32le b 96) [] with
          | none => none
          | some ps =>
            some (true, { data_ := b, header_ := maskedHeader b, points_ := ps,
                          is_loaded_ := true, is_compressed_ := false }) := by
  have hp := parseHeader_ok ({ d with data_ := b, is_loaded_ := false }) hlen hsig
  have e1 : u32le (maskedHeader b) 100 = u32le b 100 :=
    maskedHeader_u32le b (by omega) (by omega)
  have e2 : u16le (maskedHeader b) 94 = u16le b 94 :=
    maskedHeader_u16le b (by omega) (by omega) (by omega)
  have e3 : u16le (maskedHeader b) 105 = u16le b 105 :=
    maskedHeader_u16le b (by omega) (by omega) (by omega)
  have e4 : u32le (maskedHeader b) 107 = u32le b 107 :=
    maskedHeader_u32le b (by omega) (by omega)
  have e5 : u32le (maskedHeader b) 96 = u32le b 96 :=
    maskedHeader_u32le b (by omega) (by omega)
  simp only [loadData, hp, parseVLRs]
  simp only [LASHeader.number_of_variable_length_records, LASHeader.header_size,
    LASHeader.point_data_record_length, LASHeader.legacy_number_of_point_records,
    LASHeader.offset_to_point_data, readUncompressedPoints, e1, e2]
  cases parseVLRsLoop b (u32le b 100) (u16le b 94) ((byteAt b 104 &&& 0x80) != 0) with
  | none => rfl
  | some c =>
    cases c with
    | true => rfl
    | false =>
      simp only [Bool.false_eq_true, if_false, e3, e4, e5]
      by_cases hmax : u32le b 107 > maxSizePoints
      · simp only [if_pos hmax]
      · simp only [if_neg hmax]
        cases readPointsLoop ops b (maskedHeader b) (u16le b 105) (u32le b 107) (u32le b 96) []
          <;> rfl

/-- What `loadData` does once the header is accepted, on a buffer a
`std::vector` can hold: the compression flag is the header bit or-ed with the
VLR scan; a compressed stream is refused, and otherwise the result is that of
the point loop. -/
theorem loadData_valid {F : Type} (ops : DoubleOps F) (d : LAZDecoder F) (b : List Byte)
    (hfit : FitsVector b) (hlen : 227 ≤ b.length) (hsig : b.take 4 = [76, 65, 83, 70]) :
    ∃ c : Bool,
      (c = true ↔ ((byteAt b 104).testBit 7 = true ∨ VlrMarker b (u16le b 94) (u32le b 100))) ∧
      loadData ops d b =
        if c then
          some (false, { data_ := b, header_ := maskedHeader b, points_ := d.points_,
                         is_loaded_ := false, is_compressed_ := true })
        else if u32le b 107 > maxSizePoints then none
        else
          match readPointsLoop ops b (maskedHeader b) (u16le b 105) (u32le b 107)
              (u32le b 96) [] with
          | none => none
          | some ps =>
            some (true, { data_ := b, header_ := maskedHeader b, points_ := ps,
                          is_loaded_ := true, is_compressed_ := false }) := by
  have hhs : u16le b 94 < 2 ^ 31 + 65536 := by
    have := u16le_lt b 94; omega
  obtain ⟨c, hc, hiff⟩ := parseVLRsLoop_spec b hfit (u32le b 100) (u16le b 94)
    ((byteAt b 104 &&& 0x80) != 0) hhs
  refine ⟨c, ?_, ?_⟩
  · rw [hiff, and_0x80_eq_testBit]
  · rw [loadData_header_ok ops d b hlen hsig, hc]
    cases c <;> rfl

/-- C3. On a buffer with a valid header, bit 7 of the point-format byte, or a
VLR entry among the first `vlr_count` that the walk reaches and whose
`user_id` is "laszip", each force `isCompressed()` to be true; `loadData` then
returns false and the decoder is not loaded. -/
theorem C3_compression_detection_monotonic {F : Type} (ops : DoubleOps F) (d : LAZDecoder F)
    (b : List Byte) (hfit : FitsVector b) (hlen : 227 ≤ b.length)
    (hsig : b.take 4 = [76, 65, 83, 70])
    (hsignal : (byteAt b 104).testBit 7 = true ∨
      ∃ k, k < u32le b 100 ∧ VlrReached b (u16le b 94) k ∧
        UserIdIs b (vlrOffset b (u16le b 94) k) litLaszip) :
    ∃ d1, loadData ops d b = some (false, d1) ∧ isCompressed d1 = true ∧
      isLoaded d1 = false := by
  obtain ⟨c, hc, hload⟩ := loadData_valid ops d b hfit hlen hsig
  have hct : c = true := by
    rw [hc]
    rcases hsignal with h | ⟨k, hk, hr, hu⟩
    · exact Or.inl h
    · exact Or.inr ⟨k, hk, hr, Or.inr hu⟩
  subst hct
  exact ⟨_, hload, rfl, rfl⟩

theorem C3_compression_detection_monotonic_witness :
    FitsVector laszipVlrFile ∧ 227 ≤ laszipVlrFile.length ∧
    laszipVlrFile.take 4 = [76, 65, 83, 70] ∧
    (byteAt laszipVlrFile 104).testBit 7 = false ∧
    (∃ d1, loadData intOps (LAZDecoder.new Int) laszipVlrFile = some (false, d1) ∧
      isCompressed d1 = true ∧ isLoaded d1 = false) :=
  ⟨by decide, by decide, by decide, by decide,
    C3_compression_detection_monotonic intOps (LAZDecoder.new Int) laszipVlrFile
      (by decide) (by decide) (by decide)
      (Or.inr ⟨0, by decide, by decide, by decide⟩)⟩

/-! ## The point loop -/

theorem u32le_take_drop (b : List Byte) (o n i : Nat) (h : i + 3 < n) :
    u32le ((b.drop o).take n) i = u32le b (o + i) := by
  unfold u32le
  rw [byteAt_take (by omega), byteAt_take (by omega), byteAt_take (by omega),
    byteAt_take (by omega), byteAt_drop, byteAt_drop, byteAt_drop, byteAt_drop]
  simp only [Nat.add_assoc]

theorem u16le_take_drop (b : List Byte) (o n i : Nat) (h : i + 1 < n) :
    u16le ((b.drop o).take n) i = u16le b (o + i) := by
  unfold u16le
  rw [byteAt_take (by omega), byteAt_take (by omega), byteAt_drop, byteAt_drop]
  simp only [Nat.add_assoc]

/-- The point built by the loop from the record copied at `o` is the point the
specification reads off the buffer at `o`. -/
theorem mkPoint_eq_decodedPointAt {F : Type} (ops : DoubleOps F) (b : List Byte) (o : Nat) :
    mkPoint ops (maskedHeader b) ((b.drop o).take 20) = decodedPointAt ops b o := by
  simp only [mkPoint, decodedPointAt, LASPointFormat0.x, LASPointFormat0.y, LASPointFormat0.z,
    LASPointFormat0.intensity, LASPointFormat0.classification, i32le,
    LASHeader.x_scale_factor, LASHeader.y_scale_factor, LASHeader.z_scale_factor,
    LASHeader.x_offset, LASHeader.y_offset, LASHeader.z_offset]
  rw [u32le_take_drop b o 20 0 (by omega), u32le_take_drop b o 20 4 (by omega),
    u32le_take_drop b o 20 8 (by omega), u16le_take_drop b o 20 12 (by omega),
    byteAt_take (by omega), byteAt_drop,
    maskedHeader_u64le b (by omega) (by omega), maskedHeader_u64le b (by omega) (by omega),
    maskedHeader_u64le b (by omega) (by omega), maskedHeader_u64le b (by omega) (by omega),
    maskedHeader_u64le b (by omega) (by omega), maskedHeader_u64le b (by omega) (by omega)]
  rfl

theorem recordPoints_succ {F : Type} (ops : DoubleOps F) (b : List Byte) (o prl m : Nat) :
    recordPoints ops b o prl (m + 1)
      = decodedPointAt ops b o :: recordPoints ops b (o + prl) prl m := by
  unfold recordPoints
  rw [List.range_succ_eq_map, List.map_cons, List.map_map]
  congr 1
  · simp
  · apply List.map_congr_left
    intro i _
    simp only [Function.comp, Nat.succ_eq_add_one]
    congr 1
    rw [Nat.add_mul]; omega

theorem recordPoints_length {F : Type} (ops : DoubleOps F) (b : List Byte) (o prl m : Nat) :
    (recordPoints ops b o prl m).length = m := by
  simp [recordPoints]

/-- A run of the point loop that ends without an out-of-bounds read, on a
buffer a `std::vector` can hold: it appended the points of the first `m`
records, every one of them lies with its full stride and with its 20 decoded
bytes inside the buffer, and it stopped before `n` only because the next
stride would leave the buffer. -/
theorem readPointsLoop_spec {F : Type} (ops : DoubleOps F) (b : List Byte) (prl : Nat)
    (hfit : FitsVector b) (hprl : prl < 65536) (n : Nat) :
    ∀ (o : Nat) (acc ps : List (Point F)),
      readPointsLoop ops b (maskedHeader b) prl n o acc = some ps →
      ∃ m, m ≤ n ∧ ps = acc ++ recordPoints ops b o prl m ∧
        (∀ i, i < m → o + i * prl + prl ≤ b.length ∧ o + i * prl + 20 ≤ b.length) ∧
        (m < n → b.length < o + m * prl + prl) := by
  unfold FitsVector at hfit
  induction n with
  | zero =>
    intro o acc ps h
    simp only [readPointsLoop, Option.some.injEq] at h
    exact ⟨0, Nat.le_refl 0, by simp [recordPoints, h], by intro i hi; omega, by intro h0; omega⟩
  | succ n ih =>
    intro o acc ps h
    simp only [readPointsLoop, sizeofLASPointFormat0] at h
    by_cases hchk : (o + prl) % 2 ^ 32 > b.length
    · rw [if_pos hchk] at h
      simp only [Option.some.injEq] at h
      have hle : (o + prl) % 2 ^ 32 ≤ o + prl := Nat.mod_le _ _
      exact ⟨0, by omega, by simp [recordPoints, h], by intro i hi; omega,
        by intro _; omega⟩
    · rw [if_neg hchk] at h
      by_cases hrd : o + 20 ≤ b.length
      · rw [readBytes_eq_some hrd] at h
        have hmod : (o + prl) % 2 ^ 32 = o + prl := Nat.mod_eq_of_lt (by omega)
        simp only [hmod] at h hchk
        obtain ⟨m, hm, hps, hin, hstop⟩ := ih (o + prl) _ ps h
        refine ⟨m + 1, by omega, ?_, ?_, ?_⟩
        · rw [hps, recordPoints_succ, mkPoint_eq_decodedPointAt]
          simp
        · intro i hi
          cases i with
          | zero => simp only [Nat.zero_mul]; omega
          | succ i =>
            have := hin i (by omega)
            rw [Nat.add_mul]; omega
        · intro hlt
          have := hstop (by omega)
          rw [Nat.add_mul]; omega
      · rw [readBytes_eq_none (by omega)] at h
        exact absurd h (by simp)

/-- With a stride of at least the 20 bytes that are decoded, and a start
offset whose first stride does not wrap around 32 bits, the point loop never
reads outside the buffer. -/
theorem readPointsLoop_total {F : Type} (ops : DoubleOps F) (b h : List Byte) (prl : Nat)
    (hfit : FitsVector b) (hprl : prl < 65536) (h20 : 20 ≤ prl) (n : Nat) :
    ∀ (o : Nat) (acc : List (Point F)), o + prl < 2 ^ 32 →
      ∃ ps, readPointsLoop ops b h prl n o acc = some ps := by
  unfold FitsVector at hfit
  induction n with
  | zero => intro o acc _; exact ⟨acc, rfl⟩
  | succ n ih =>
    intro o acc ho
    have hmod : (o + prl) % 2 ^ 32 = o + prl := Nat.mod_eq_of_lt ho
    simp only [readPointsLoop, sizeofLASPointFormat0, hmod]
    by_cases hchk : o + prl > b.length
    · rw [if_pos hchk]; exact ⟨acc, rfl⟩
    · rw [if_neg hchk, readBytes_eq_some (by omega)]
      exact ih (o + prl) _ (by omega)

/-- What a `loadData` that returned true has done. -/
theorem loadData_true_inv {F : Type} (ops : DoubleOps F) (d d1 : LAZDecoder F) (b : List Byte)
    (h : loadData ops d b = some (true, d1)) :
    227 ≤ b.length ∧ b.take 4 = [76, 65, 83, 70] ∧
      parseVLRsLoop b (u32le b 100) (u16le b 94) ((byteAt b 104 &&& 0x80) != 0) = some false ∧
      ∃ ps, readPointsLoop ops b (maskedHeader b) (u16le b 105) (u32le b 107) (u32le b 96) []
          = some ps ∧
        d1 = { data_ := b, header_ := maskedHeader b, points_ := ps,
               is_loaded_ := true, is_compressed_ := false } := by
  by_cases hlen : b.length < 227
  · rw [loadData_short ops d b hlen] at h
    simp at h
  · have hlen1 : 227 ≤ b.length := by omega
    by_cases hsig : b.take 4 = [76, 65, 83, 70]
    · refine ⟨hlen1, hsig, ?_⟩
      rw [loadData_header_ok ops d b hlen1 hsig] at h
      cases hv : parseVLRsLoop b (u32le b 100) (u16le b 94) ((byteAt b 104 &&& 0x80) != 0) with
      | none => rw [hv] at h; simp at h
      | some c =>
        rw [hv] at h
        cases c with
        | true => simp at h
        | false =>
          refine ⟨rfl, ?_⟩
          simp only at h
          by_cases hmax : u32le b 107 > maxSizePoints
          · rw [if_pos hmax] at h; simp at h
          · rw [if_neg hmax] at h
            cases hr : readPointsLoop ops b (maskedHeader b) (u16le b 105) (u32le b 107)
                (u32le b 96) [] with
            | none => rw [hr] at h; simp at h
            | some ps =>
              rw [hr] at h
              simp only [Option.some.injEq, Prod.mk.injEq, true_and] at h
              exact ⟨ps, rfl, h.symm⟩
    · rw [loadData_badSignature ops d b hlen1 hsig] at h
      simp at h

/-! ## Success and failure of `loadData` -/

/-- On a buffer with a valid header that is not detected as compressed,
`loadData` returns true and marks the decoder loaded, without any read outside
the buffer, whenever the declared count is within `max_size()`, the declared
stride covers the 20 decoded bytes and the first stride does not wrap around
32 bits; truncated VLR directories and point regions are tolerated. -/
theorem loadData_succeeds_of_stride_ge_20 {F : Type} (ops : DoubleOps F) (d : LAZDecoder F)
    (b : List Byte) (hfit : FitsVector b) (hlen : 227 ≤ b.length)
    (hsig : b.take 4 = [76, 65, 83, 70]) (hbit : (byteAt b 104).testBit 7 = false)
    (hvlr : ¬ VlrMarker b (u16le b 94) (u32le b 100)) (h20 : 20 ≤ u16le b 105)
    (hwrap : u32le b 96 + u16le b 105 < 2 ^ 32) (hcount : u32le b 107 ≤ maxSizePoints) :
    ∃ d1, loadData ops d b = some (true, d1) ∧ isLoaded d1 = true ∧
      isCompressed d1 = false := by
  obtain ⟨c, hc, hload⟩ := loadData_valid ops d b hfit hlen hsig
  have hcf : c = false := by
    cases c with
    | false => rfl
    | true =>
      rcases hc.1 rfl with h | h
      · rw [hbit] at h; exact absurd h (by simp)
      · exact absurd h hvlr
  subst hcf
  obtain ⟨ps, hps⟩ := readPointsLoop_total ops b (maskedHeader b) (u16le b 105) hfit
    (u16le_lt b 105) h20 (u32le b 107) (u32le b 96) [] hwrap
  rw [hps] at hload
  simp only [Bool.false_eq_true, if_false, if_neg (Nat.not_lt.2 hcount)] at hload
  exact ⟨_, hload, rfl, rfl⟩

/-! ## The machine-level reading of `loadData` -/

theorem copyBytes_eq (amb : Nat → Byte) (data : List Byte) (off n : Nat)
    (hin : off + n ≤ data.length) (hlen : data.length ≤ 2 ^ 32) :
    copyBytes amb data off n = (data.drop off).take n := by
  apply List.ext_getElem?
  intro i
  unfold copyBytes
  rw [List.getElem?_map, List.getElem?_take, List.getElem?_drop]
  by_cases hi : i < n
  · have hmod : (off + i) % 2 ^ 32 = off + i := Nat.mod_eq_of_lt (by omega)
    have hlt : off + i < data.length := by omega
    rw [List.getElem?_range hi, if_pos hi]
    simp only [Option.map_some', peek, hmod, if_pos hlt, List.getD_eq_getElem?_getD,
      List.getElem?_eq_getElem hlt, Option.getD_some]
  · rw [if_neg hi, List.getElem?_eq_none (by simp; omega)]
    rfl

/-- A run of the point loop that stays inside the buffer is also the run of the
machine, whatever surrounds the vector. -/
theorem readPointsLoopMem_of_strict {F : Type} (ops : DoubleOps F) (amb : Nat → Byte)
    (b h : List Byte) (prl : Nat) (hlen : b.length ≤ 2 ^ 32) (n : Nat) :
    ∀ (o : Nat) (acc ps : List (Point F)),
      readPointsLoop ops b h prl n o acc = some ps →
      readPointsLoopMem ops amb b h prl n o acc = ps := by
  induction n with
  | zero =>
    intro o acc ps hps
    simp only [readPointsLoop, Option.some.injEq] at hps
    simp only [readPointsLoopMem, hps]
  | succ n ih =>
    intro o acc ps hps
    simp only [readPointsLoop, sizeofLASPointFormat0] at hps
    simp only [readPointsLoopMem, sizeofLASPointFormat0]
    by_cases hchk : (o + prl) % 2 ^ 32 > b.length
    · rw [if_pos hchk] at hps ⊢
      simpa using hps
    · rw [if_neg hchk] at hps ⊢
      by_cases hrd : o + 20 ≤ b.length
      · rw [readBytes_eq_some hrd] at hps
        rw [copyBytes_eq amb b o 20 hrd hlen]
        exact ih _ _ _ hps
      · rw [readBytes_eq_none (by omega)] at hps
        exact absurd hps (by simp)

theorem loadDataMem_short {F : Type} (ops : DoubleOps F) (amb : Nat → Byte)
    (d : LAZDecoder F) (b : List Byte) (h : b.length < 227) :
    loadDataMem ops amb d b = some (false, { d with data_ := b, is_loaded_ := false }) := by
  simp [loadDataMem, parseHeader_short ({ d with data_ := b, is_loaded_ := false }) h]

theorem loadDataMem_badSignature {F : Type} (ops : DoubleOps F) (amb : Nat → Byte)
    (d : LAZDecoder F) (b : List Byte) (h : 227 ≤ b.length)
    (hsig : b.take 4 ≠ [76, 65, 83, 70]) :
    loadDataMem ops amb d b
      = some (false, { d with data_ := b, is_loaded_ := false, header_ := b.take 227 }) := by
  simp only [loadDataMem]
  rw [parseHeader_badSignature _ h hsig]

/-- The steps of `loadDataMem` after the header is accepted. -/
theorem loadDataMem_header_ok {F : Type} (ops : DoubleOps F) (amb : Nat → Byte)
    (d : LAZDecoder F) (b : List Byte)
    (hlen : 227 ≤ b.length) (hsig : b.take 4 = [76, 65, 83, 70]) :
    loadDataMem ops amb d b =
      match parseVLRsLoop b (u32le b 100) (u16le b 94) ((byteAt b 104 &&& 0x80) != 0) with
      | none => none
      | some true =>
        some (false, { data_ := b, header_ := maskedHeader b, points_ := d.points_,
                       is_loaded_ := false, is_compressed_ := true })
      | some false =>
        if u32le b 107 > maxSizePoints then none
        else
          some (true, { data_ := b, header_ := maskedHeader b,
                        points_ := readPointsLoopMem ops amb b (maskedHeader b) (u16le b 105)
                          (u32le b 107) (u32le b 96) [],
                        is_loaded_ := true, is_compressed_ := false }) := by
  have hp := parseHeader_ok ({ d with data_ := b, is_loaded_ := false }) hlen hsig
  have e1 : u32le (maskedHeader b) 100 = u32le b 100 :=
    maskedHeader_u32le b (by omega) (by omega)
  have e2 : u16le (maskedHeader b) 94 = u16le b 94 :=
    maskedHeader_u16le b (by omega) (by omega) (by omega)
  have e3 : u16le (maskedHeader b) 105 = u16le b 105 :=
    maskedHeader_u16le b (by omega) (by omega) (by omega)
  have e4 : u32le (maskedHeader b) 107 = u32le b 107 :=
    maskedHeader_u32le b (by omega) (by omega)
  have e5 : u32le (maskedHeader b) 96 = u32le b 96 :=
    maskedHeader_u32le b (by omega) (by omega)
  simp only [loadDataMem, hp, parseVLRs]
  simp only [LASHeader.number_of_variable_length_records, LASHeader.header_size,
    LASHeader.point_data_record_length, LASHeader.legacy_number_of_point_records,
    LASHeader.offset_to_point_data, readUncompressedPointsMem, e1, e2]
  cases parseVLRsLoop b (u32le b 100) (u16le b 94) ((byteAt b 104 &&& 0x80) != 0) with
  | none => rfl
  | some c =>
    cases c with
    | true => rfl
    | false =>
      simp only [Bool.false_eq_true, if_false, e3, e4, e5]
      by_cases hmax : u32le b 107 > maxSizePoints
      · simp only [if_pos hmax]
      · simp only [if_neg hmax]

/-- Whenever `loadData` returns without having read outside the buffer, the
machine returns the same flag and the same decoder, whatever surrounds the
vector. -/
theorem loadDataMem_of_loadData {F : Type} (ops : DoubleOps F) (amb : Nat → Byte)
    (d : LAZDecoder F) (b : List Byte) (r : Bool × LAZDecoder F) (hfit : FitsVector b)
    (h : loadData ops d b = some r) : loadDataMem ops amb d b = some r := by
  have hle : b.length ≤ 2 ^ 32 := by unfold FitsVector at hfit; omega
  by_cases hlen : b.length < 227
  · rw [loadData_short ops d b hlen] at h
    rw [loadDataMem_short ops amb d b hlen]; exact h
  · by_cases hsig : b.take 4 = [76, 65, 83, 70]
    · rw [loadData_header_ok ops d b (by omega) hsig] at h
      rw [loadDataMem_header_ok ops amb d b (by omega) hsig]
      cases hv : parseVLRsLoop b (u32le b 100) (u16le b 94) ((byteAt b 104 &&& 0x80) != 0) with
      | none => rw [hv] at h; simp at h
      | some c =>
        rw [hv] at h
        cases c with
        | true => exact h
        | false =>
          simp only at h ⊢
          by_cases hmax : u32le b 107 > maxSizePoints
          · rw [if_pos hmax] at h; simp at h
          · rw [if_neg hmax] at h ⊢
            cases hr : readPointsLoop ops b (maskedHeader b) (u16le b 105) (u32le b 107)
                (u32le b 96) [] with
            | none => rw [hr] at h; simp at h
            | some ps =>
              rw [hr] at h
              rw [readPointsLoopMem_of_strict ops amb b (maskedHeader b) _ hle _ _ _ ps hr]
              exact h
    · rw [loadData_badSignature ops d b (by omega) hsig] at h
      rw [loadDataMem_badSignature ops amb d b (by omega) hsig]; exact h

/-- On the machine, a buffer with a valid header that is not detected as
compressed and whose declared count is within `max_size()` makes `loadData`
return true and mark the decoder loaded, for every stride and every start
offset, however short the VLR directory and the point region are. -/
theorem loadDataMem_returns_true {F : Type} (ops : DoubleOps F) (amb : Nat → Byte)
    (d : LAZDecoder F) (b : List Byte) (hfit : FitsVector b) (hlen : 227 ≤ b.length)
    (hsig : b.take 4 = [76, 65, 83, 70]) (hbit : (byteAt b 104).testBit 7 = false)
    (hvlr : ¬ VlrMarker b (u16le b 94) (u32le b 100))
    (hcount : u32le b 107 ≤ maxSizePoints) :
    ∃ d1, loadDataMem ops amb d b = some (true, d1) ∧ isLoaded d1 = true ∧
      isCompressed d1 = false := by
  have hhs : u16le b 94 < 2 ^ 31 + 65536 := by
    have := u16le_lt b 94; omega
  obtain ⟨c, hc, hiff⟩ := parseVLRsLoop_spec b hfit (u32le b 100) (u16le b 94)
    ((byteAt b 104 &&& 0x80) != 0) hhs
  rw [and_0x80_eq_testBit] at hiff
  have hcf : c = false := by
    cases c with
    | false => rfl
    | true =>
      rcases hiff.1 rfl with h | h
      · rw [hbit] at h; exact absurd h (by simp)
      · exact absurd h hvlr
  subst hcf
  rw [loadDataMem_header_ok ops amb d b hlen hsig, hc]
  simp only [if_neg (Nat.not_lt.2 hcount)]
  exact ⟨_, rfl, rfl, rfl⟩

/-- A declared count above `max_size()` makes `reserve` throw: with a valid
header that is not detected as compressed, `loadData` does not return, in the
checked reading and on the machine alike. -/
theorem loadData_reserve_throws {F : Type} (ops : DoubleOps F) (amb : Nat → Byte)
    (d : LAZDecoder F) (b : List Byte) (hfit : FitsVector b) (hlen : 227 ≤ b.length)
    (hsig : b.take 4 = [76, 65, 83, 70]) (hbit : (byteAt b 104).testBit 7 = false)
    (hvlr : ¬ VlrMarker b (u16le b 94) (u32le b 100))
    (hcount : maxSizePoints < u32le b 107) :
    loadData ops d b = none ∧ loadDataMem ops amb d b = none := by
  have hhs : u16le b 94 < 2 ^ 31 + 65536 := by
    have := u16le_lt b 94; omega
  obtain ⟨c, hc, hiff⟩ := parseVLRsLoop_spec b hfit (u32le b 100) (u16le b 94)
    ((byteAt b 104 &&& 0x80) != 0) hhs
  rw [and_0x80_eq_testBit] at hiff
  have hcf : c = false := by
    cases c with
    | false => rfl
    | true =>
      rcases hiff.1 rfl with h | h
      · rw [hbit] at h; exact absurd h (by simp)
      · exact absurd h hvlr
  subst hcf
  rw [loadData_header_ok ops d b hlen hsig, loadDataMem_header_ok ops amb d b hlen hsig, hc]
  simp only [if_pos hcount, and_self]

/-- C4 (failing input). `hugeCountFile` is a 227-byte file with a valid header,
a clear compression bit and no VLR, whose point region is truncated to nothing
and whose declared count is 4294967295. The claim has `loadData` return true
with an empty sequence; the code calls `points_.reserve(4294967295)`, which is
above `max_size()` and throws `std::length_error`, so `loadData` does not
return, although the loop itself would stop at once (227 + 20 exceeds 227) and
copy nothing. -/
theorem C4_huge_count_reserve_throws :
    (227 ≤ hugeCountFile.length ∧ hugeCountFile.take 4 = [76, 65, 83, 70] ∧
      (byteAt hugeCountFile 104).testBit 7 = false ∧
      ¬ VlrMarker hugeCountFile (u16le hugeCountFile 94) (u32le hugeCountFile 100)) ∧
    (u32le hugeCountFile 107 = 4294967295 ∧ maxSizePoints < u32le hugeCountFile 107 ∧
      hugeCountFile.length = 227 ∧ u32le hugeCountFile 96 = 227 ∧
      u16le hugeCountFile 105 = 20) ∧
    readPointsLoop intOps hugeCountFile (maskedHeader hugeCountFile) 20 4294967295 227 []
      = some [] ∧
    loadData intOps (LAZDecoder.new Int) hugeCountFile = none ∧
    loadDataMem intOps zeroMemory (LAZDecoder.new Int) hugeCountFile = none :=
  ⟨⟨by decide, by decide, by decide, by decide⟩,
    ⟨by decide, by decide, by decide, by decide, by decide⟩,
    by simp [readPointsLoop, hugeCountFile, sampleHeader, le16, le32],
    Option.isNone_iff_eq_none.1 (by decide), Option.isNone_iff_eq_none.1 (by decide)⟩

/-- C5 (failing input). After a successful load of `onePointFile`, a load that
fails header validation (an empty buffer, or a buffer with a wrong signature)
returns false and clears `is_loaded_`, but `getPointCount()` still reports the
one point of the earlier file. -/
theorem C5_failed_reload_keeps_old_points :
    (loadData intOps (LAZDecoder.new Int) onePointFile).map
        (fun r => (r.1, isLoaded r.2, getPointCount r.2)) = some (true, true, 1) ∧
    ((loadData intOps (LAZDecoder.new Int) onePointFile).bind
        (fun r => loadData intOps r.2 [])).map
        (fun r => (r.1, isLoaded r.2, getPointCount r.2)) = some (false, false, 1) ∧
    ((loadData intOps (LAZDecoder.new Int) onePointFile).bind
        (fun r => loadData intOps r.2 badSignatureFile)).map
        (fun r => (r.1, isLoaded r.2, getPointCount r.2)) = some (false, false, 1) := by
  decide

/-- C6. After a successful `loadData` on a buffer that is not truncated
(`offset_to_point_data + point_count * point_record_length` does not exceed the
buffer), `getPointCount()` is the length of the decoded sequence and equals the
declared `point_count`, for every stride. -/
theorem C6_point_count_matches_header {F : Type} (ops : DoubleOps F) (d d1 : LAZDecoder F)
    (b : List Byte) (hfit : FitsVector b) (hload : loadData ops d b = some (true, d1))
    (hfull : u32le b 96 + u32le b 107 * u16le b 105 ≤ b.length) :
    getPointCount d1 = d1.points_.length ∧ d1.points_.length = u32le b 107 := by
  obtain ⟨_, _, _, ps, hps, hd1⟩ := loadData_true_inv ops d d1 b hload
  obtain ⟨m, hm, hpm, _, hstop⟩ := readPointsLoop_spec ops b (u16le b 105) hfit
    (u16le_lt b 105) (u32le b 107) (u32le b 96) [] ps hps
  have hmn : m = u32le b 107 := by
    by_contra hne
    have hlt : m < u32le b 107 := by omega
    have h1 := hstop hlt
    have h2 : (m + 1) * u16le b 105 ≤ u32le b 107 * u16le b 105 :=
      Nat.mul_le_mul_right _ (by omega)
    rw [Nat.add_mul] at h2
    omega
  have hlen : d1.points_.length = u32le b 107 := by
    rw [hd1, hpm]
    simp [recordPoints_length, hmn]
  refine ⟨?_, hlen⟩
  unfold getPointCount
  rw [hlen]
  exact Nat.mod_eq_of_lt (u32le_lt b 107)

theorem C6_point_count_matches_header_witness :
    FitsVector wideStrideFile ∧
    u32le wideStrideFile 96 + u32le wideStrideFile 107 * u16le wideStrideFile 105
      ≤ wideStrideFile.length ∧
    u16le wideStrideFile 105 = 30 ∧
    ∃ d1, loadData intOps (LAZDecoder.new Int) wideStrideFile = some (true, d1) ∧
      getPointCount d1 = d1.points_.length ∧ d1.points_.length = u32le wideStrideFile 107 := by
  obtain ⟨d1, h1, _⟩ := loadData_succeeds_of_stride_ge_20 intOps (LAZDecoder.new Int)
    wideStrideFile (by decide) (by decide) (by decide) (by decide) (by decide) (by decide)
    (by decide) (by decide)
  exact ⟨by decide, by decide, by decide, d1, h1,
    C6_point_count_matches_header intOps (LAZDecoder.new Int) d1 wideStrideFile (by decide) h1
      (by decide)⟩

/-! ## Decoded points -/

theorem u32le_congr (b c : List Byte) (a : Nat)
    (h : ∀ i, i < 4 → byteAt c (a + i) = byteAt b (a + i)) : u32le c a = u32le b a := by
  unfold u32le
  rw [h 1 (by omega), h 2 (by omega), h 3 (by omega)]
  have := h 0 (by omega)
  simp only [Nat.add_zero] at this
  rw [this]

theorem u16le_congr (b c : List Byte) (a : Nat)
    (h : ∀ i, i < 2 → byteAt c (a + i) = byteAt b (a + i)) : u16le c a = u16le b a := by
  unfold u16le
  rw [h 1 (by omega)]
  have := h 0 (by omega)
  simp only [Nat.add_zero] at this
  rw [this]

theorem u64le_congr (b c : List Byte) (a : Nat)
    (h : ∀ i, i < 8 → byteAt c (a + i) = byteAt b (a + i)) : u64le c a = u64le b a := by
  unfold u64le
  rw [u32le_congr b c a (fun i hi => h i (by omega)),
    u32le_congr b c (a + 4) (fun i hi => by
      have := h (4 + i) (by omega)
      simpa only [Nat.add_assoc] using this)]

/-- The decoded point depends on the buffer only through the 20 bytes of its
record and the scale/offset doubles of the header (bytes 131-178). -/
theorem decodedPointAt_congr {F : Type} (ops : DoubleOps F) (b c : List Byte) (o : Nat)
    (hrec : ∀ i, i < 20 → byteAt c (o + i) = byteAt b (o + i))
    (hhdr : ∀ i, 131 ≤ i → i < 179 → byteAt c i = byteAt b i) :
    decodedPointAt ops c o = decodedPointAt ops b o := by
  have hs : ∀ a, 131 ≤ a → a + 8 ≤ 179 → u64le c a = u64le b a := fun a h1 h2 =>
    u64le_congr b c a (fun i hi => hhdr (a + i) (by omega) (by omega))
  have hx : u32le c o = u32le b o := u32le_congr b c o (fun i hi => hrec i (by omega))
  have hy : u32le c (o + 4) = u32le b (o + 4) := u32le_congr b c (o + 4) (fun i hi => by
    have := hrec (4 + i) (by omega)
    simpa only [Nat.add_assoc] using this)
  have hz : u32le c (o + 8) = u32le b (o + 8) := u32le_congr b c (o + 8) (fun i hi => by
    have := hrec (8 + i) (by omega)
    simpa only [Nat.add_assoc] using this)
  have hi : u16le c (o + 12) = u16le b (o + 12) := u16le_congr b c (o + 12) (fun i hi => by
    have := hrec (12 + i) (by omega)
    simpa only [Nat.add_assoc] using this)
  have hc : byteAt c (o + 15) = byteAt b (o + 15) := hrec 15 (by omega)
  simp only [decodedPointAt, i32le, hx, hy, hz, hi, hc, hs 131 (by omega) (by omega),
    hs 139 (by omega) (by omega), hs 147 (by omega) (by omega), hs 155 (by omega) (by omega),
    hs 163 (by omega) (by omega), hs 171 (by omega) (by omega)]

/-- The number of records the loop decodes is fixed by the buffer length, the
start offset, the stride and the declared count. -/
theorem decoded_count_unique (len o prl n m1 m2 : Nat) (h1 : m1 ≤ n) (h2 : m2 ≤ n)
    (f1 : ∀ i, i < m1 → o + i * prl + prl ≤ len) (f2 : ∀ i, i < m2 → o + i * prl + prl ≤ len)
    (s1 : m1 < n → len < o + m1 * prl + prl) (s2 : m2 < n → len < o + m2 * prl + prl) :
    m1 = m2 := by
  rcases Nat.lt_trichotomy m1 m2 with h | h | h
  · have := f2 m1 h
    have := s1 (by omega)
    omega
  · exact h
  · have := f1 m2 h
    have := s2 (by omega)
    omega

/-- The points of a successful load, read off the buffer. -/
theorem loadData_points {F : Type} (ops : DoubleOps F) (d d1 : LAZDecoder F) (b : List Byte)
    (hfit : FitsVector b) (hload : loadData ops d b = some (true, d1)) :
    ∃ m, m ≤ u32le b 107 ∧
      d1.points_ = recordPoints ops b (u32le b 96) (u16le b 105) m ∧
      (∀ i, i < m → u32le b 96 + i * u16le b 105 + u16le b 105 ≤ b.length ∧
        u32le b 96 + i * u16le b 105 + 20 ≤ b.length) ∧
      (m < u32le b 107 → b.length < u32le b 96 + m * u16le b 105 + u16le b 105) := by
  obtain ⟨_, _, _, ps, hps, hd1⟩ := loadData_true_inv ops d d1 b hload
  obtain ⟨m, hm, hpm, hin, hstop⟩ := readPointsLoop_spec ops b (u16le b 105) hfit
    (u16le_lt b 105) (u32le b 107) (u32le b 96) [] ps hps
  refine ⟨m, hm, ?_, hin, hstop⟩
  rw [hd1, hpm]
  simp

/-- C7 (as stated, refuted). Changing an extra byte of record 0 can change the
decoded points. In `headerOverlapFile` byte 107 = 80 + 0*40 + 27 is an extra
byte of record 0 and also the low byte of the point count: setting it to 0
leaves no decoded point where there was one. In `vlrOverlapFile` byte
258 = 227 + 0*60 + 31 is an extra byte of record 0 and also ends the `user_id`
of a scanned VLR: setting it to 0 makes that VLR a "laszip" marker, the load
fails and no point is decoded. -/
theorem C7_extra_byte_can_change_points :
    ((107 = u32le headerOverlapFile 96 + 0 * u16le headerOverlapFile 105 + 27 ∧
        27 < u16le headerOverlapFile 105) ∧
      (loadData intOps (LAZDecoder.new Int) headerOverlapFile).map
        (fun r => (r.1, r.2.points_.length)) = some (true, 1) ∧
      (loadData intOps (LAZDecoder.new Int) (headerOverlapFile.set 107 0)).map
        (fun r => (r.1, r.2.points_.length)) = some (true, 0)) ∧
    ((258 = u32le vlrOverlapFile 96 + 0 * u16le vlrOverlapFile 105 + 31 ∧
        31 < u16le vlrOverlapFile 105) ∧
      (loadData intOps (LAZDecoder.new Int) vlrOverlapFile).map
        (fun r => (r.1, r.2.points_.length)) = some (true, 1) ∧
      (loadData intOps (LAZDecoder.new Int) (vlrOverlapFile.set 258 0)).map
        (fun r => (r.1, r.2.points_.length)) = some (false, 0)) := by
  decide

/-- C7 (amended). After a successful `loadData`, every point below the decoded
count is the point read off the 20 bytes at
`offset_to_point_data + i * point_record_length` and the header's scale and
offset doubles: raw x, y, z at record bytes 0-3, 4-7, 8-11 (signed), intensity
at 12-13, classification at 15. Changing a byte at position 20 or more within
the stride of a record leaves the decoded points unchanged when that byte lies
outside the 227-byte header and `loadData` still succeeds on the changed
buffer. -/
theorem C7_points_from_record_bytes {F : Type} (ops : DoubleOps F) (d d1 : LAZDecoder F)
    (b : List Byte) (hfit : FitsVector b) (hload : loadData ops d b = some (true, d1)) :
    (∀ i, i < getPointCount d1 →
      u32le b 96 + i * u16le b 105 + 20 ≤ b.length ∧
      getPoint ops d1 i = decodedPointAt ops b (u32le b 96 + i * u16le b 105)) ∧
    (∀ (k j p : Nat) (v : Byte) (d0 d2 : LAZDecoder F),
      20 ≤ j → j < u16le b 105 → p = u32le b 96 + k * u16le b 105 + j → 227 ≤ p →
      loadData ops d0 (b.set p v) = some (true, d2) → d2.points_ = d1.points_) := by
  obtain ⟨m, hm, hpts, hin, hstop⟩ := loadData_points ops d d1 b hfit hload
  have hcnt : getPointCount d1 = m := by
    unfold getPointCount
    rw [hpts, recordPoints_length]
    have := u32le_lt b 107
    exact Nat.mod_eq_of_lt (by omega)
  constructor
  · intro i hi
    rw [hcnt] at hi
    refine ⟨(hin i hi).2, ?_⟩
    have hlen : i < d1.points_.length := by rw [hpts, recordPoints_length]; exact hi
    unfold getPoint
    rw [dif_pos hlen]
    simp only [List.get_eq_getElem, hpts, recordPoints, List.getElem_map, List.getElem_range]
  · intro k j p v d0 d2 hj hjs hp hp227 hload2
    have hfit2 : FitsVector (b.set p v) := by
      unfold FitsVector at *; rw [List.length_set]; exact hfit
    obtain ⟨m2, hm2, hpts2, hin2, hstop2⟩ := loadData_points ops d0 d2 (b.set p v) hfit2 hload2
    have hb : ∀ i, i < 227 → byteAt (b.set p v) i = byteAt b i := fun i hi =>
      byteAt_set_ne v (by omega)
    have e96 : u32le (b.set p v) 96 = u32le b 96 :=
      u32le_congr b _ 96 (fun i hi => hb _ (by omega))
    have e105 : u16le (b.set p v) 105 = u16le b 105 :=
      u16le_congr b _ 105 (fun i hi => hb _ (by omega))
    have e107 : u32le (b.set p v) 107 = u32le b 107 :=
      u32le_congr b _ 107 (fun i hi => hb _ (by omega))
    rw [e96, e105] at hpts2 hin2 hstop2
    rw [e107] at hm2 hstop2
    rw [List.length_set] at hin2 hstop2
    have hmm : m2 = m := decoded_count_unique b.length (u32le b 96) (u16le b 105) (u32le b 107)
      m2 m hm2 hm (fun i hi => (hin2 i hi).1) (fun i hi => (hin i hi).1) hstop2 hstop
    rw [hpts, hpts2, hmm]
    unfold recordPoints
    apply List.map_congr_left
    intro i _
    apply decodedPointAt_congr
    · intro t ht
      apply byteAt_set_ne
      rcases Nat.lt_or_ge k i with hki | hki
      · have : (k + 1) * u16le b 105 ≤ i * u16le b 105 := Nat.mul_le_mul_right _ hki
        rw [Nat.add_mul] at this
        omega
      · have : i * u16le b 105 ≤ k * u16le b 105 := Nat.mul_le_mul_right _ hki
        omega
    · intro t _ ht
      exact hb t (by omega)

theorem C7_points_from_record_bytes_witness :
    FitsVector wideStrideFile ∧
    ∃ d1, loadData intOps (LAZDecoder.new Int) wideStrideFile = some (true, d1) ∧
      ((∀ i, i < getPointCount d1 →
        u32le wideStrideFile 96 + i * u16le wideStrideFile 105 + 20 ≤ wideStrideFile.length ∧
        getPoint intOps d1 i
          = decodedPointAt intOps wideStrideFile
              (u32le wideStrideFile 96 + i * u16le wideStrideFile 105)) ∧
       (∀ (k j p : Nat) (v : Byte) (d0 d2 : LAZDecoder Int),
        20 ≤ j → j < u16le wideStrideFile 105 →
        p = u32le wideStrideFile 96 + k * u16le wideStrideFile 105 + j → 227 ≤ p →
        loadData intOps d0 (wideStrideFile.set p v) = some (true, d2) →
        d2.points_ = d1.points_)) := by
  obtain ⟨d1, h1, _⟩ := loadData_succeeds_of_stride_ge_20 intOps (LAZDecoder.new Int)
    wideStrideFile (by decide) (by decide) (by decide) (by decide) (by decide) (by decide)
    (by decide) (by decide)
  exact ⟨by decide, d1, h1,
    C7_points_from_record_bytes intOps (LAZDecoder.new Int) d1 wideStrideFile (by decide) h1⟩

/-! ## Memory safety and the stopping rule of the point loop -/

/-- C8 (failing inputs). `loadData` reads outside the buffer. In
`zeroStrideFile` (237 bytes, stride 0) the guard `offset + point_size > size`
admits offset 227 and the 20-byte copy runs to byte 246. In `wrapOffsetFile`
(267 bytes) the sum `0xFFFFFFF0 + 32` wraps to 16, the guard admits the record
and the copy starts at offset `0xFFFFFFF0`. -/
theorem C8_point_copy_leaves_buffer :
    (zeroStrideFile.length = 237 ∧ u32le zeroStrideFile 96 = 227 ∧
      u16le zeroStrideFile 105 = 0 ∧
      loadData intOps (LAZDecoder.new Int) zeroStrideFile = none) ∧
    (wrapOffsetFile.length = 267 ∧ u32le wrapOffsetFile 96 = 4294967280 ∧
      u16le wrapOffsetFile 105 = 32 ∧
      loadData intOps (LAZDecoder.new Int) wrapOffsetFile = none) :=
  ⟨⟨by decide, by decide, by decide, Option.isNone_iff_eq_none.1 (by decide)⟩,
    ⟨by decide, by decide, by decide, Option.isNone_iff_eq_none.1 (by decide)⟩⟩

/-- C9 (failing input). `partialStrideFile` declares one record of stride 30
and holds exactly its 20 decoded bytes (227 + 20 = 247 = length): the largest
count of fitting 20-byte records is 1, but `loadData` returns true with no
point, because the guard tests the declared stride and 227 + 30 exceeds 247. -/
theorem C9_fixed_width_rule_refuted :
    (loadData intOps (LAZDecoder.new Int) partialStrideFile).map
      (fun r => (r.1, r.2.points_.length)) = some (true, 0) ∧
    IsLargestCount (FixedWidthRecordsFit partialStrideFile) (u32le partialStrideFile 107) 1 ∧
    ¬ IsLargestCount (FixedWidthRecordsFit partialStrideFile) (u32le partialStrideFile 107) 0 := by
  have h1 : u32le partialStrideFile 107 = 1 := by decide
  have h2 : FixedWidthRecordsFit partialStrideFile 1 := by decide
  refine ⟨by decide, ⟨by omega, h2, fun n hn _ => by omega⟩, ?_⟩
  rintro ⟨_, _, h⟩
  have := h 1 (by omega) h2
  omega

/-- What the guard of the point loop implements: after a `loadData` that
returned true without reading outside the buffer, the number of decoded points
is the largest `n ≤ point_count` such that for every `i < n` the record of full
declared stride starting at `offset_to_point_data + i * point_record_length`
ends at or before the end of the buffer. -/
theorem decoder_stops_at_full_stride {F : Type} (ops : DoubleOps F) (d d1 : LAZDecoder F)
    (b : List Byte) (hfit : FitsVector b) (hload : loadData ops d b = some (true, d1)) :
    IsLargestCount (StrideRecordsFit b) (u32le b 107) d1.points_.length := by
  obtain ⟨m, hm, hpts, hin, hstop⟩ := loadData_points ops d d1 b hfit hload
  have hlen : d1.points_.length = m := by rw [hpts, recordPoints_length]
  rw [hlen]
  refine ⟨hm, fun i hi => (hin i hi).1, fun n hn hP => ?_⟩
  by_contra hlt
  have h1 := hP m (by omega)
  have h2 := hstop (by omega)
  omega

/-! ## Truncation yields a prefix -/

theorem readPointsLoop_acc_prefix {F : Type} (ops : DoubleOps F) (b h : List Byte)
    (prl n : Nat) :
    ∀ (o : Nat) (acc ps : List (Point F)),
      readPointsLoop ops b h prl n o acc = some ps → acc <+: ps := by
  induction n with
  | zero =>
    intro o acc ps hps
    simp only [readPointsLoop, Option.some.injEq] at hps
    rw [hps]
  | succ n ih =>
    intro o acc ps hps
    simp only [readPointsLoop] at hps
    split at hps
    · simp only [Option.some.injEq] at hps
      rw [hps]
    · split at hps
      · exact absurd hps (by simp)
      · exact List.IsPrefix.trans (List.prefix_append _ _) (ih _ _ _ hps)

/-- Two runs of the point loop with the same header, count and start offset, on
a buffer and on an extension of it: the shorter buffer yields a prefix. -/
theorem readPointsLoop_append {F : Type} (ops : DoubleOps F) (b e h : List Byte)
    (prl n : Nat) :
    ∀ (o : Nat) (acc ps qs : List (Point F)),
      readPointsLoop ops b h prl n o acc = some ps →
      readPointsLoop ops (b ++ e) h prl n o acc = some qs → ps <+: qs := by
  induction n with
  | zero =>
    intro o acc ps qs hps hqs
    simp only [readPointsLoop, Option.some.injEq] at hps hqs
    rw [← hps, ← hqs]
  | succ n ih =>
    intro o acc ps qs hps hqs
    by_cases hchk : (o + prl) % 2 ^ 32 > b.length
    · simp only [readPointsLoop] at hps
      rw [if_pos hchk] at hps
      simp only [Option.some.injEq] at hps
      rw [← hps]
      exact readPointsLoop_acc_prefix ops (b ++ e) h prl (n + 1) o acc qs hqs
    · simp only [readPointsLoop, sizeofLASPointFormat0] at hps hqs
      rw [if_neg hchk] at hps
      have hchk2 : ¬ (o + prl) % 2 ^ 32 > (b ++ e).length := by
        rw [List.length_append]; omega
      rw [if_neg hchk2] at hqs
      by_cases hrd : o + 20 ≤ b.length
      · have hrd2 : o + 20 ≤ (b ++ e).length := by rw [List.length_append]; omega
        rw [readBytes_eq_some hrd] at hps
        rw [readBytes_eq_some hrd2] at hqs
        have hsame : ((b ++ e).drop o).take 20 = (b.drop o).take 20 := by
          rw [List.drop_append_of_le_length (by omega),
            List.take_append_of_le_length (by rw [List.length_drop]; omega)]
        rw [hsame] at hqs
        exact ih _ _ _ _ hps hqs
      · rw [readBytes_eq_none (by omega)] at hps
        exact absurd hps (by simp)

theorem byteAt_append_left (b e : List Byte) (i : Nat) (h : i < b.length) :
    byteAt (b ++ e) i = byteAt b i := by
  unfold byteAt
  rw [List.getD_eq_getElem?_getD, List.getD_eq_getElem?_getD, List.getElem?_append_left h]

theorem maskedHeader_append (b e : List Byte) (h : 227 ≤ b.length) :
    maskedHeader (b ++ e) = maskedHeader b := by
  unfold maskedHeader
  rw [List.take_append_of_le_length h, byteAt_append_left b e 104 (by omega)]

/-- When `loadData` returns true on a buffer and on an extension of it without
reading outside either, the points decoded from the shorter buffer are a prefix
of the points decoded from the longer one. -/
theorem prefix_of_checked_loads {F : Type} (ops : DoubleOps F)
    (d d1 c c1 : LAZDecoder F) (b e : List Byte)
    (hb : loadData ops d b = some (true, d1))
    (hbe : loadData ops c (b ++ e) = some (true, c1)) :
    d1.points_ <+: c1.points_ := by
  obtain ⟨hlen, _, _, ps, hps, hd1⟩ := loadData_true_inv ops d d1 b hb
  obtain ⟨_, _, _, qs, hqs, hc1⟩ := loadData_true_inv ops c c1 (b ++ e) hbe
  have hbyte : ∀ i, i < 227 → byteAt (b ++ e) i = byteAt b i := fun i hi =>
    byteAt_append_left b e i (by omega)
  have e96 : u32le (b ++ e) 96 = u32le b 96 :=
    u32le_congr b _ 96 (fun i hi => hbyte _ (by omega))
  have e105 : u16le (b ++ e) 105 = u16le b 105 :=
    u16le_congr b _ 105 (fun i hi => hbyte _ (by omega))
  have e107 : u32le (b ++ e) 107 = u32le b 107 :=
    u32le_congr b _ 107 (fun i hi => hbyte _ (by omega))
  rw [maskedHeader_append b e hlen, e96, e105, e107] at hqs
  rw [hd1, hc1]
  exact readPointsLoop_append ops b e (maskedHeader b) _ _ _ _ ps qs hps hqs

/-- C10 (failing input). `wrapOffsetFile` and its extension by one byte both
have a valid header, stride 32 and no compression signal, and the declared
count is 1. The sum `0xFFFFFFF0 + 32` wraps to 16, so the guard admits the
record and the 20-byte copy starts 16 bytes in front of the vector: in the
checked reading neither load returns, and on the machine both return true with
one point each that is read from the memory around the vector. With the byte 0
around the first vector and the byte 1 around the second the two points differ
(intensity 0 and 257), so the shorter file's sequence is no prefix of the
longer file's. -/
theorem C10_wrapped_offset_breaks_prefix :
    ((227 ≤ wrapOffsetFile.length ∧ wrapOffsetFile.take 4 = [76, 65, 83, 70] ∧
        (byteAt wrapOffsetFile 104).testBit 7 = false ∧
        ¬ VlrMarker wrapOffsetFile (u16le wrapOffsetFile 94) (u32le wrapOffsetFile 100) ∧
        20 ≤ u16le wrapOffsetFile 105) ∧
      (227 ≤ (wrapOffsetFile ++ [0]).length ∧
        (wrapOffsetFile ++ [0]).take 4 = [76, 65, 83, 70] ∧
        (byteAt (wrapOffsetFile ++ [0]) 104).testBit 7 = false ∧
        ¬ VlrMarker (wrapOffsetFile ++ [0]) (u16le (wrapOffsetFile ++ [0]) 94)
            (u32le (wrapOffsetFile ++ [0]) 100) ∧
        20 ≤ u16le (wrapOffsetFile ++ [0]) 105)) ∧
    (loadData intOps (LAZDecoder.new Int) wrapOffsetFile = none ∧
      loadData intOps (LAZDecoder.new Int) (wrapOffsetFile ++ [0]) = none) ∧
    ∃ d1 c1,
      loadDataMem intOps zeroMemory (LAZDecoder.new Int) wrapOffsetFile = some (true, d1) ∧
      loadDataMem intOps oneMemory (LAZDecoder.new Int) (wrapOffsetFile ++ [0])
        = some (true, c1) ∧
      d1.points_.map (fun p => p.intensity) = [0] ∧
      c1.points_.map (fun p => p.intensity) = [257] ∧
      ¬ d1.points_ <+: c1.points_ := by
  refine ⟨⟨⟨by decide, by decide, by decide, by decide, by decide⟩,
    ⟨by decide, by decide, by decide, by decide, by decide⟩⟩,
    ⟨Option.isNone_iff_eq_none.1 (by decide), Option.isNone_iff_eq_none.1 (by decide)⟩, ?_⟩
  have e1 : (loadDataMem intOps zeroMemory (LAZDecoder.new Int) wrapOffsetFile).map
      (fun r => (r.1, r.2.points_.map (fun p => p.intensity))) = some (true, [0]) := by decide
  have e2 : (loadDataMem intOps oneMemory (LAZDecoder.new Int) (wrapOffsetFile ++ [0])).map
      (fun r => (r.1, r.2.points_.map (fun p => p.intensity))) = some (true, [257]) := by
    decide
  cases h1 : loadDataMem intOps zeroMemory (LAZDecoder.new Int) wrapOffsetFile with
  | none => rw [h1] at e1; simp at e1
  | some r1 =>
    cases h2 : loadDataMem intOps oneMemory (LAZDecoder.new Int) (wrapOffsetFile ++ [0]) with
    | none => rw [h2] at e2; simp at e2
    | some r2 =>
      obtain ⟨f1, d1⟩ := r1
      obtain ⟨f2, c1⟩ := r2
      rw [h1] at e1
      rw [h2] at e2
      simp only [Option.map_some', Option.some.injEq, Prod.mk.injEq] at e1 e2
      obtain ⟨rfl, i1⟩ := e1
      obtain ⟨rfl, i2⟩ := e2
      refine ⟨d1, c1, rfl, rfl, i1, i2, ?_⟩
      intro hpre
      have hmap := List.IsPrefix.map (fun p : Point Int => p.intensity) hpre
      rw [i1, i2] at hmap
      exact absurd hmap (by decide)

/-! ## Bounds on the decoded sequence and the indexed accessor -/

theorem loadData_of_flag {F : Type} (ops : DoubleOps F) (d : LAZDecoder F) (b : List Byte)
    (h : (loadData ops d b).map Prod.fst = some true) :
    ∃ d1, loadData ops d b = some (true, d1) := by
  cases hl : loadData ops d b with
  | none => rw [hl] at h; simp at h
  | some r =>
    obtain ⟨r1, d1⟩ := r
    rw [hl] at h
    simp only [Option.map_some', Option.some.injEq] at h
    subst h
    exact ⟨d1, rfl⟩

theorem readPointsLoop_length_le {F : Type} (ops : DoubleOps F) (b h : List Byte)
    (prl n : Nat) :
    ∀ (o : Nat) (acc ps : List (Point F)),
      readPointsLoop ops b h prl n o acc = some ps → ps.length ≤ acc.length + n := by
  induction n with
  | zero =>
    intro o acc ps hps
    simp only [readPointsLoop, Option.some.injEq] at hps
    rw [← hps]; omega
  | succ n ih =>
    intro o acc ps hps
    simp only [readPointsLoop] at hps
    split at hps
    · simp only [Option.some.injEq] at hps
      rw [← hps]; omega
    · split at hps
      · exact absurd hps (by simp)
      · have := ih _ _ _ hps
        simp only [List.length_append, List.length_singleton] at this
        omega

/-- C17. After a `loadData` that returned true, `getPointCount()` is at most
the declared `point_count`, whatever the stride (also for stride 0, where the
same record is decoded again and again). -/
theorem C17_count_at_most_declared {F : Type} (ops : DoubleOps F) (d d1 : LAZDecoder F)
    (b : List Byte) (hload : loadData ops d b = some (true, d1)) :
    getPointCount d1 ≤ u32le b 107 := by
  obtain ⟨_, _, _, ps, hps, hd1⟩ := loadData_true_inv ops d d1 b hload
  have h1 := readPointsLoop_length_le ops b (maskedHeader b) _ _ _ _ ps hps
  have h2 : getPointCount d1 ≤ d1.points_.length := Nat.mod_le _ _
  have h3 : d1.points_.length = ps.length := by rw [hd1]
  simp only [List.length_nil, Nat.zero_add] at h1
  omega

theorem C17_count_at_most_declared_witness :
    u16le repeatFile 105 = 0 ∧ u32le repeatFile 107 = 3 ∧
    ∃ d1, loadData intOps (LAZDecoder.new Int) repeatFile = some (true, d1) ∧
      d1.points_.length = 3 ∧ getPointCount d1 ≤ u32le repeatFile 107 := by
  obtain ⟨d1, h1⟩ := loadData_of_flag intOps (LAZDecoder.new Int) repeatFile (by decide)
  have l1 : (loadData intOps (LAZDecoder.new Int) repeatFile).map
      (fun r => r.2.points_.length) = some 3 := by decide
  rw [h1] at l1
  simp only [Option.map_some', Option.some.injEq] at l1
  exact ⟨by decide, by decide, d1, h1, l1,
    C17_count_at_most_declared intOps (LAZDecoder.new Int) d1 repeatFile h1⟩

/-- C20. `getPoint(index)` returns the `index`-th element of the decoded
sequence when `index < getPointCount()`, and the all-zero point otherwise; the
sequence is only accessed at an index below its length. -/
theorem C20_getPoint_total {F : Type} (ops : DoubleOps F) (d : LAZDecoder F) (index : Nat)
    (hsize : d.points_.length < 2 ^ 32) :
    (index < getPointCount d → d.points_.get? index = some (getPoint ops d index)) ∧
    (¬ index < getPointCount d →
      getPoint ops d index = { x := ops.ofInt 0, y := ops.ofInt 0, z := ops.ofInt 0,
                               intensity := 0, classification := 0 }) := by
  have hc : getPointCount d = d.points_.length := Nat.mod_eq_of_lt hsize
  rw [hc]
  constructor
  · intro h
    unfold getPoint
    rw [dif_pos h]
    exact List.get?_eq_get h
  · intro h
    unfold getPoint
    rw [dif_neg h]

theorem C20_getPoint_total_witness :
    onePointDecoder.points_.length < 2 ^ 32 ∧
    getPoint intOps onePointDecoder 0
      = { x := 1, y := 2, z := 3, intensity := 4, classification := 5 } ∧
    ((7 < getPointCount onePointDecoder →
        onePointDecoder.points_.get? 7 = some (getPoint intOps onePointDecoder 7)) ∧
     (¬ 7 < getPointCount onePointDecoder →
        getPoint intOps onePointDecoder 7
          = { x := intOps.ofInt 0, y := intOps.ofInt 0, z := intOps.ofInt 0,
              intensity := 0, classification := 0 })) :=
  ⟨by decide, rfl, C20_getPoint_total intOps onePointDecoder 7 (by decide)⟩

/-! ## The spatial filter -/

/-- With center lists of equal length, the inner loop of `filterPoints` reads
inside the three vectors and pushes the point exactly when some remaining
center has it in range. -/
theorem centerLoop_eq {F : Type} (ops : DoubleOps F) (p : Point F) (cy cz : List F) (r2 : F)
    (cx : List F) :
    ∀ i, cx.length + i = cy.length → cx.length + i = cz.length →
      centerLoop ops p cy cz r2 cx i
        = some ((List.zip cx (List.zip (cy.drop i) (cz.drop i))).any
            (fun c => ops.le (dist2 ops p c.1 c.2.1 c.2.2) r2)) := by
  induction cx with
  | nil => intro i _ _; rfl
  | cons x xs ih =>
    intro i hy hz
    simp only [List.length_cons] at hy hz
    have hiy : i < cy.length := by omega
    have hiz : i < cz.length := by omega
    simp only [centerLoop, List.get?_eq_getElem?, List.getElem?_eq_getElem hiy,
      List.getElem?_eq_getElem hiz]
    rw [List.drop_eq_getElem_cons hiy, List.drop_eq_getElem_cons hiz]
    simp only [List.zip_cons_cons, List.any_cons]
    by_cases hle : ops.le (dist2 ops p x cy[i] cz[i]) r2 = true
    · simp [hle]
    · rw [if_neg hle, ih (i + 1) (by omega) (by omega)]
      simp [hle]

theorem filterLoop_eq {F : Type} (ops : DoubleOps F) (cx cy cz : List F) (r2 : F)
    (f : Point F → Bool)
    (hf : ∀ p, centerLoop ops p cy cz r2 cx 0 = some (f p)) (pts : List (Point F)) :
    ∀ acc, filterLoop ops cx cy cz r2 pts acc = some (acc ++ pts.filter f) := by
  induction pts with
  | nil => intro acc; simp [filterLoop]
  | cons p ps ih =>
    intro acc
    simp only [filterLoop, hf p]
    cases hp : f p with
    | true => simp [ih, List.filter_cons, hp]
    | false => simp [ih, List.filter_cons, hp]

/-- With center lists of equal length `filterPoints` is the decoded sequence
filtered by membership in the union of the balls. -/
theorem filterPoints_eq_filter {F : Type} (ops : DoubleOps F) (d : LAZDecoder F)
    (cx cy cz : List F) (r : F) (hy : cx.length = cy.length) (hz : cx.length = cz.length) :
    filterPoints ops d cx cy cz r = some (d.points_.filter (inSomeSphere ops cx cy cz r)) := by
  unfold filterPoints
  rw [filterLoop_eq ops cx cy cz (ops.mul r r) (inSomeSphere ops cx cy cz r)]
  · simp
  · intro p
    rw [centerLoop_eq ops p cy cz (ops.mul r r) cx 0 (by omega) (by omega)]
    rfl

/-- Membership in the union of the balls, by center index. -/
theorem inSomeSphere_iff {F : Type} (ops : DoubleOps F) (cx cy cz : List F) (r : F)
    (p : Point F) :
    inSomeSphere ops cx cy cz r p = true ↔
      ∃ i x y z, cx.get? i = some x ∧ cy.get? i = some y ∧ cz.get? i = some z ∧
        ops.le (dist2 ops p x y z) (ops.mul r r) = true := by
  unfold inSomeSphere
  rw [List.any_eq_true]
  constructor
  · rintro ⟨⟨x, y, z⟩, hmem, hin⟩
    obtain ⟨i, hi⟩ := List.mem_iff_getElem?.1 hmem
    rw [List.getElem?_zip_eq_some, List.getElem?_zip_eq_some] at hi
    exact ⟨i, x, y, z, by simpa using hi.1, by simpa using hi.2.1, by simpa using hi.2.2, hin⟩
  · rintro ⟨i, x, y, z, hx, hy, hz, hin⟩
    refine ⟨(x, y, z), ?_, hin⟩
    apply List.mem_iff_getElem?.2
    refine ⟨i, ?_⟩
    rw [List.getElem?_zip_eq_some, List.getElem?_zip_eq_some]
    simp only [List.get?_eq_getElem?] at hx hy hz
    exact ⟨hx, hy, hz⟩

/-- C12. For center lists of equal length, `filterPoints` returns the decoded
sequence filtered, in order and without repetition, by "some center index `i`
has `(px-cx[i])^2 + (py-cy[i])^2 + (pz-cz[i])^2 <= radius^2`", the boundary
included. -/
theorem C12_filter_is_union_of_spheres {F : Type} (ops : DoubleOps F) (d : LAZDecoder F)
    (cx cy cz : List F) (r : F) (hy : cx.length = cy.length) (hz : cx.length = cz.length) :
    filterPoints ops d cx cy cz r = some (d.points_.filter (inSomeSphere ops cx cy cz r)) ∧
    ∀ p, inSomeSphere ops cx cy cz r p = true ↔
      ∃ i x y z, cx.get? i = some x ∧ cy.get? i = some y ∧ cz.get? i = some z ∧
        ops.le (ops.add (ops.add (ops.mul (ops.sub p.x x) (ops.sub p.x x))
            (ops.mul (ops.sub p.y y) (ops.sub p.y y)))
            (ops.mul (ops.sub p.z z) (ops.sub p.z z))) (ops.mul r r) = true :=
  ⟨filterPoints_eq_filter ops d cx cy cz r hy hz, inSomeSphere_iff ops cx cy cz r⟩

theorem C12_filter_is_union_of_spheres_witness :
    filterPoints (exactOps scenarioValue) originDecoder [3] [4] [0] 5 = some [originPoint] ∧
    filterPoints (exactOps scenarioValue) originDecoder [3] [4] [0] (49 / 10) = some [] := by
  constructor
  · rw [(C12_filter_is_union_of_spheres (exactOps scenarioValue) originDecoder [3] [4] [0] 5
      rfl rfl).1]
    simp only [originDecoder, inSomeSphere, inSphere, dist2, exactOps, originPoint,
      List.zip_cons_cons, List.zip_nil_right, List.any_cons, List.any_nil, List.filter_cons,
      List.filter_nil]
    norm_num
  · rw [(C12_filter_is_union_of_spheres (exactOps scenarioValue) originDecoder [3] [4] [0]
      (49 / 10) rfl rfl).1]
    simp only [originDecoder, inSomeSphere, inSphere, dist2, exactOps, originPoint,
      List.zip_cons_cons, List.zip_nil_right, List.any_cons, List.any_nil, List.filter_cons,
      List.filter_nil]
    norm_num

theorem sum_squares_le_zero (a b c : ℚ) : a * a + b * b + c * c ≤ 0 * 0 ↔ a = 0 ∧ b = 0 ∧ c = 0 := by
  constructor
  · intro h
    have ha := mul_self_nonneg a
    have hb := mul_self_nonneg b
    have hc := mul_self_nonneg c
    have ha0 : a * a = 0 := by linarith
    have hb0 : b * b = 0 := by linarith
    have hc0 : c * c = 0 := by linarith
    exact ⟨mul_self_eq_zero.1 ha0, mul_self_eq_zero.1 hb0, mul_self_eq_zero.1 hc0⟩
  · rintro ⟨rfl, rfl, rfl⟩
    norm_num

/-- C13. Over exact arithmetic and with center lists of equal length,
`filterPoints` with radius 0 selects exactly the decoded points that coincide
with some center. -/
theorem C13_zero_radius_selects_coincident (dec : Nat → ℚ) (d : LAZDecoder ℚ)
    (cx cy cz : List ℚ) (hy : cx.length = cy.length) (hz : cx.length = cz.length) :
    ∃ res, filterPoints (exactOps dec) d cx cy cz 0 = some res ∧
      ∀ p, p ∈ res ↔
        p ∈ d.points_ ∧
          ∃ i, cx.get? i = some p.x ∧ cy.get? i = some p.y ∧ cz.get? i = some p.z := by
  refine ⟨_, filterPoints_eq_filter (exactOps dec) d cx cy cz 0 hy hz, fun p => ?_⟩
  rw [List.mem_filter, inSomeSphere_iff]
  constructor
  · rintro ⟨hp, i, x, y, z, hx, hy1, hz1, hle⟩
    refine ⟨hp, i, ?_⟩
    simp only [exactOps, dist2, decide_eq_true_eq] at hle
    obtain ⟨h1, h2, h3⟩ := (sum_squares_le_zero _ _ _).1 hle
    have e1 : x = p.x := by linarith
    have e2 : y = p.y := by linarith
    have e3 : z = p.z := by linarith
    rw [hx, hy1, hz1, e1, e2, e3]
    exact ⟨rfl, rfl, rfl⟩
  · rintro ⟨hp, i, hx, hy1, hz1⟩
    refine ⟨hp, i, p.x, p.y, p.z, hx, hy1, hz1, ?_⟩
    simp only [exactOps, dist2, decide_eq_true_eq]
    norm_num

theorem C13_zero_radius_selects_coincident_witness :
    ([3] : List ℚ).length = ([4] : List ℚ).length ∧
    ([3] : List ℚ).length = ([0] : List ℚ).length ∧
    ∃ res, filterPoints (exactOps scenarioValue) originDecoder [3] [4] [0] 0 = some res ∧
      ∀ p, p ∈ res ↔
        p ∈ originDecoder.points_ ∧
          ∃ i, ([3] : List ℚ).get? i = some p.x ∧ ([4] : List ℚ).get? i = some p.y ∧
            ([0] : List ℚ).get? i = some p.z :=
  ⟨rfl, rfl, C13_zero_radius_selects_coincident scenarioValue originDecoder [3] [4] [0] rfl rfl⟩

/-- C18. `filterPoints` uses the radius only through `radius * radius`: two
radii with the same square give the same result, so over exact arithmetic
`filterPoints(-r)` equals `filterPoints(r)`, and the radius -5 selects the point
(0,0,0) for the center (3,4,0). -/
theorem C18_radius_enters_through_square :
    (∀ (F : Type) (ops : DoubleOps F) (d : LAZDecoder F) (cx cy cz : List F) (r s : F),
      ops.mul s s = ops.mul r r →
      filterPoints ops d cx cy cz s = filterPoints ops d cx cy cz r) ∧
    (∀ (dec : Nat → ℚ) (d : LAZDecoder ℚ) (cx cy cz : List ℚ) (r : ℚ),
      filterPoints (exactOps dec) d cx cy cz (-r) = filterPoints (exactOps dec) d cx cy cz r) ∧
    filterPoints (exactOps scenarioValue) originDecoder [3] [4] [0] (-5)
      = some [originPoint] := by
  have h1 : ∀ (F : Type) (ops : DoubleOps F) (d : LAZDecoder F) (cx cy cz : List F) (r s : F),
      ops.mul s s = ops.mul r r →
      filterPoints ops d cx cy cz s = filterPoints ops d cx cy cz r := by
    intro F ops d cx cy cz r s h
    unfold filterPoints
    rw [h]
  have h2 : ∀ (dec : Nat → ℚ) (d : LAZDecoder ℚ) (cx cy cz : List ℚ) (r : ℚ),
      filterPoints (exactOps dec) d cx cy cz (-r)
        = filterPoints (exactOps dec) d cx cy cz r := by
    intro dec d cx cy cz r
    apply h1
    simp only [exactOps]
    exact neg_mul_neg r r
  refine ⟨h1, h2, ?_⟩
  rw [h2, filterPoints_eq_filter (exactOps scenarioValue) originDecoder [3] [4] [0] 5 rfl rfl]
  simp only [originDecoder, inSomeSphere, inSphere, dist2, exactOps, originPoint,
    List.zip_cons_cons, List.zip_nil_right, List.any_cons, List.any_nil, List.filter_cons,
    List.filter_nil]
  norm_num

/-! ## Exact characterisation of compression detection -/

/-- The offset of VLR `k` is `o` plus the sum, over the earlier entries, of 54
and the declared payload length of the entry. -/
theorem vlrOffset_eq_sum (b : List Byte) (o k : Nat) :
    vlrOffset b o k
      = o + ∑ j in Finset.range k, (54 + u16le b (vlrOffset b o j + 20)) := by
  induction k with
  | zero => simp [vlrOffset]
  | succ k ih =>
    rw [Finset.sum_range_succ]
    show vlrOffset b o k + 54 + u16le b (vlrOffset b o k + 20) = _
    omega

/-- C14. On a buffer with a valid header the VLR scan returns, and the flag it
leaves (which is what `isCompressed()` reports after `loadData`) is true exactly
when bit 7 of the point-format byte is set or some VLR `k < vlr_count` that the
walk reaches has `user_id` "laszip encoded" or "laszip"; VLR `k` is read at
`header_size` plus the sum of `54 + record_length_after_header` over the earlier
entries, and the walk reaches `k` when the headers of entries `0..k` all lie
inside the buffer. -/
theorem C14_compression_detection_exact {F : Type} (ops : DoubleOps F) (d : LAZDecoder F)
    (b : List Byte) (hfit : FitsVector b) (hlen : 227 ≤ b.length)
    (hsig : b.take 4 = [76, 65, 83, 70]) :
    (∃ c, parseVLRsLoop b (u32le b 100) (u16le b 94) ((byteAt b 104 &&& 0x80) != 0) = some c ∧
      (c = true ↔ ((byteAt b 104).testBit 7 = true ∨
        ∃ k, k < u32le b 100 ∧ (∀ j, j ≤ k → vlrOffset b (u16le b 94) j + 54 ≤ b.length) ∧
          (UserIdIs b (vlrOffset b (u16le b 94) k) litLaszipEncoded ∨
            UserIdIs b (vlrOffset b (u16le b 94) k) litLaszip)))) ∧
    (∀ r d1, loadData ops d b = some (r, d1) →
      (isCompressed d1 = true ↔ ((byteAt b 104).testBit 7 = true ∨
        ∃ k, k < u32le b 100 ∧ (∀ j, j ≤ k → vlrOffset b (u16le b 94) j + 54 ≤ b.length) ∧
          (UserIdIs b (vlrOffset b (u16le b 94) k) litLaszipEncoded ∨
            UserIdIs b (vlrOffset b (u16le b 94) k) litLaszip)))) ∧
    (∀ k, vlrOffset b (u16le b 94) k
      = u16le b 94 + ∑ j in Finset.range k, (54 + u16le b (vlrOffset b (u16le b 94) j + 20))) := by
  have hhs : u16le b 94 < 2 ^ 31 + 65536 := by
    have := u16le_lt b 94; omega
  obtain ⟨c, hc, hiff⟩ := parseVLRsLoop_spec b hfit (u32le b 100) (u16le b 94)
    ((byteAt b 104 &&& 0x80) != 0) hhs
  rw [and_0x80_eq_testBit] at hiff
  refine ⟨⟨c, hc, hiff⟩, ?_, fun k => vlrOffset_eq_sum b _ k⟩
  intro r d1 hload
  rw [loadData_header_ok ops d b hlen hsig, hc] at hload
  cases c with
  | true =>
    simp only [Option.some.injEq, Prod.mk.injEq] at hload
    rw [← hload.2]
    exact hiff
  | false =>
    simp only at hload
    by_cases hmax : u32le b 107 > maxSizePoints
    · rw [if_pos hmax] at hload; simp at hload
    · rw [if_neg hmax] at hload
      cases hr : readPointsLoop ops b (maskedHeader b) (u16le b 105) (u32le b 107)
          (u32le b 96) [] with
      | none => rw [hr] at hload; simp at hload
      | some ps =>
        rw [hr] at hload
        simp only [Option.some.injEq, Prod.mk.injEq] at hload
        rw [← hload.2]
        exact hiff

theorem C14_compression_detection_exact_witness :
    FitsVector laszipVlrFile ∧ 227 ≤ laszipVlrFile.length ∧
    laszipVlrFile.take 4 = [76, 65, 83, 70] ∧
    (loadData intOps (LAZDecoder.new Int) laszipVlrFile).map
      (fun r => (r.1, isCompressed r.2)) = some (false, true) ∧
    UserIdIs laszipVlrFile (vlrOffset laszipVlrFile (u16le laszipVlrFile 94) 0) litLaszip ∧
    ∃ c, parseVLRsLoop laszipVlrFile (u32le laszipVlrFile 100) (u16le laszipVlrFile 94)
        ((byteAt laszipVlrFile 104 &&& 0x80) != 0) = some c ∧
      (c = true ↔ ((byteAt laszipVlrFile 104).testBit 7 = true ∨
        ∃ k, k < u32le laszipVlrFile 100 ∧
          (∀ j, j ≤ k → vlrOffset laszipVlrFile (u16le laszipVlrFile 94) j + 54
            ≤ laszipVlrFile.length) ∧
          (UserIdIs laszipVlrFile (vlrOffset laszipVlrFile (u16le laszipVlrFile 94) k)
              litLaszipEncoded ∨
            UserIdIs laszipVlrFile (vlrOffset laszipVlrFile (u16le laszipVlrFile 94) k)
              litLaszip))) :=
  ⟨by decide, by decide, by decide, by decide, by decide,
    (C14_compression_detection_exact intOps (LAZDecoder.new Int) laszipVlrFile
      (by decide) (by decide) (by decide)).1⟩

/-! ## World coordinates -/

/-- After a successful load, `getPoint(i)` below the decoded count is the point
read off the record at `offset_to_point_data + i * point_record_length`. -/
theorem getPoint_eq_decodedPointAt {F : Type} (ops : DoubleOps F) (d d1 : LAZDecoder F)
    (b : List Byte) (hfit : FitsVector b) (hload : loadData ops d b = some (true, d1))
    (i : Nat) (hi : i < getPointCount d1) :
    getPoint ops d1 i = decodedPointAt ops b (u32le b 96 + i * u16le b 105) := by
  obtain ⟨m, hm, hpts, _, _⟩ := loadData_points ops d d1 b hfit hload
  have hcnt : getPointCount d1 ≤ m := by
    unfold getPointCount
    rw [hpts, recordPoints_length]
    exact Nat.mod_le _ _
  have hlen : i < d1.points_.length := by
    rw [hpts, recordPoints_length]; omega
  unfold getPoint
  rw [dif_pos hlen]
  simp only [List.get_eq_getElem, hpts, recordPoints, List.getElem_map, List.getElem_range]

/-- C11. Over exact rational arithmetic the world coordinates are
`raw * scale + offset` on each axis: for every point decoded by
`readUncompressedPoints` (after a successful `loadData`) and for
`getWorldX`/`getWorldY`/`getWorldZ` of the wrapper; with scale 1/100, offset 100
and raw value 500 the result is 105. -/
theorem C11_world_coordinates_exact (dec : Nat → ℚ) (d d1 : LAZDecoder ℚ) (b : List Byte)
    (hfit : FitsVector b) (hload : loadData (exactOps dec) d b = some (true, d1)) :
    (∀ i, i < getPointCount d1 →
      (getPoint (exactOps dec) d1 i).x
        = (i32le b (u32le b 96 + i * u16le b 105) : ℚ) * dec (u64le b 131)
          + dec (u64le b 155) ∧
      (getPoint (exactOps dec) d1 i).y
        = (i32le b (u32le b 96 + i * u16le b 105 + 4) : ℚ) * dec (u64le b 139)
          + dec (u64le b 163) ∧
      (getPoint (exactOps dec) d1 i).z
        = (i32le b (u32le b 96 + i * u16le b 105 + 8) : ℚ) * dec (u64le b 147)
          + dec (u64le b 171)) ∧
    (∀ i, i < getPointCount d1 → dec (u64le b 131) = 1 / 100 → dec (u64le b 155) = 100 →
      i32le b (u32le b 96 + i * u16le b 105) = 500 →
      (getPoint (exactOps dec) d1 i).x = 105) ∧
    (∀ (w : Wrapper.LAZDecoder) (r : Int),
      Wrapper.getWorldX (exactOps dec) w r
        = (r : ℚ) * dec (Wrapper.LASHeader.x_scale_factor w.header)
          + dec (Wrapper.LASHeader.x_offset w.header) ∧
      Wrapper.getWorldY (exactOps dec) w r
        = (r : ℚ) * dec (Wrapper.LASHeader.y_scale_factor w.header)
          + dec (Wrapper.LASHeader.y_offset w.header) ∧
      Wrapper.getWorldZ (exactOps dec) w r
        = (r : ℚ) * dec (Wrapper.LASHeader.z_scale_factor w.header)
          + dec (Wrapper.LASHeader.z_offset w.header)) ∧
    (∀ w : Wrapper.LAZDecoder, dec (Wrapper.LASHeader.x_scale_factor w.header) = 1 / 100 →
      dec (Wrapper.LASHeader.x_offset w.header) = 100 →
      Wrapper.getWorldX (exactOps dec) w 500 = 105) := by
  have hx : ∀ i, i < getPointCount d1 →
      (getPoint (exactOps dec) d1 i).x
        = (i32le b (u32le b 96 + i * u16le b 105) : ℚ) * dec (u64le b 131)
          + dec (u64le b 155) := by
    intro i hi
    rw [getPoint_eq_decodedPointAt (exactOps dec) d d1 b hfit hload i hi]
    rfl
  refine ⟨fun i hi => ⟨hx i hi, ?_, ?_⟩, ?_, fun w r => ⟨rfl, rfl, rfl⟩, ?_⟩
  · rw [getPoint_eq_decodedPointAt (exactOps dec) d d1 b hfit hload i hi]
    rfl
  · rw [getPoint_eq_decodedPointAt (exactOps dec) d d1 b hfit hload i hi]
    rfl
  · intro i hi hs ho hr
    rw [hx i hi, hs, ho, hr]
    norm_num
  · intro w hs ho
    simp only [Wrapper.getWorldX, exactOps, hs, ho]
    norm_num

theorem C11_world_coordinates_exact_witness :
    FitsVector scenarioFile ∧
    u64le scenarioFile 131 = 0x3F847AE147AE147B ∧ u64le scenarioFile 155 = 0x4059000000000000 ∧
    i32le scenarioFile 227 = 500 ∧
    ∃ d1, loadData (exactOps scenarioValue) (LAZDecoder.new ℚ) scenarioFile = some (true, d1) ∧
      getPointCount d1 = 1 ∧ (getPoint (exactOps scenarioValue) d1 0).x = 105 ∧
      Wrapper.getWorldX (exactOps scenarioValue) scenarioWrapper 500 = 105 := by
  obtain ⟨d1, h1, _⟩ := loadData_succeeds_of_stride_ge_20 (exactOps scenarioValue)
    (LAZDecoder.new ℚ) scenarioFile (by decide) (by decide) (by decide) (by decide)
    (by decide) (by decide) (by decide) (by decide)
  have hs : u64le scenarioFile 131 = 0x3F847AE147AE147B := by decide
  have ho : u64le scenarioFile 155 = 0x4059000000000000 := by decide
  have hr : i32le scenarioFile 227 = 500 := by decide
  have hws : Wrapper.LASHeader.x_scale_factor scenarioWrapper.header = 0x3F847AE147AE147B := by
    decide
  have hwo : Wrapper.LASHeader.x_offset scenarioWrapper.header = 0x4059000000000000 := by
    decide
  have hcount : getPointCount d1 = 1 := by
    have hfull := loadData_points (exactOps scenarioValue) (LAZDecoder.new ℚ) d1 scenarioFile
      (by decide) h1
    obtain ⟨m, hm, hpts, _, hstop⟩ := hfull
    have e107 : u32le scenarioFile 107 = 1 := by decide
    have e96 : u32le scenarioFile 96 = 227 := by decide
    have e105 : u16le scenarioFile 105 = 20 := by decide
    have elen : scenarioFile.length = 247 := by decide
    rw [e107] at hm hstop
    rw [e96, e105, elen] at hstop
    have hm1 : m = 1 := by
      by_contra hne
      have hm0 : m = 0 := by omega
      have := hstop (by omega)
      rw [hm0] at this
      omega
    unfold getPointCount
    rw [hpts, recordPoints_length, hm1]
    norm_num
  have hall := C11_world_coordinates_exact scenarioValue (LAZDecoder.new ℚ) d1 scenarioFile
    (by decide) h1
  refine ⟨by decide, hs, ho, hr, d1, h1, hcount, ?_, ?_⟩
  · apply hall.2.1 0 (by omega)
    · rw [hs]; simp [scenarioValue]
    · rw [ho]; simp [scenarioValue]
    · have e96 : u32le scenarioFile 96 = 227 := by decide
      rw [e96]; exact hr
  · apply hall.2.2.2 scenarioWrapper
    · rw [hws]; simp [scenarioValue]
    · rw [hwo]; simp [scenarioValue]

/-! ## The exposed point format -/

theorem maskedHeader_format (b : List Byte) (hlen : 227 ≤ b.length) :
    byteAt (maskedHeader b) 104 = byteAt b 104 % 128 := by
  have hl : 104 < (b.take 227).length := by
    rw [List.length_take]; omega
  have hand : byteAt b 104 &&& 0x7F = byteAt b 104 % 128 :=
    Nat.and_pow_two_sub_one_eq_mod (byteAt b 104) 7
  unfold maskedHeader
  rw [hand]
  unfold byteAt
  rw [List.getD_eq_getElem?_getD, List.getElem?_set_self hl]
  show (_ % 128) % 256 = _ % 128
  omega

/-- After a load whose header passed validation, `getPointFormat()` is the
on-disk format byte with bit 7 cleared. -/
theorem getPointFormat_of_valid_header {F : Type} (ops : DoubleOps F) (d d1 : LAZDecoder F)
    (b : List Byte) (r : Bool) (hlen : 227 ≤ b.length) (hsig : b.take 4 = [76, 65, 83, 70])
    (hload : loadData ops d b = some (r, d1)) :
    getPointFormat d1 = byteAt b 104 % 128 := by
  have hhdr : d1.header_ = maskedHeader b := by
    rw [loadData_header_ok ops d b hlen hsig] at hload
    cases hv : parseVLRsLoop b (u32le b 100) (u16le b 94) ((byteAt b 104 &&& 0x80) != 0) with
    | none => rw [hv] at hload; simp at hload
    | some c =>
      rw [hv] at hload
      cases c with
      | true =>
        simp only [Option.some.injEq, Prod.mk.injEq] at hload
        rw [← hload.2]
      | false =>
        simp only at hload
        by_cases hmax : u32le b 107 > maxSizePoints
        · rw [if_pos hmax] at hload; simp at hload
        · rw [if_neg hmax] at hload
          cases hr : readPointsLoop ops b (maskedHeader b) (u16le b 105) (u32le b 107)
              (u32le b 96) [] with
          | none => rw [hr] at hload; simp at hload
          | some ps =>
            rw [hr] at hload
            simp only [Option.some.injEq, Prod.mk.injEq] at hload
            rw [← hload.2]
  unfold getPointFormat LASHeader.point_data_record_format
  rw [hhdr]
  exact maskedHeader_format b hlen

theorem getPointFormat_new (F : Type) : getPointFormat (LAZDecoder.new F) = 0 := by
  unfold getPointFormat LASHeader.point_data_record_format LAZDecoder.new byteAt
  simp only [List.getD_eq_getElem?_getD]
  rw [List.getElem?_replicate]
  simp [sizeofLASHeader]

theorem loadSequence_format_lt {F : Type} (ops : DoubleOps F) (bs : List (List Byte)) :
    ∀ d d1 : LAZDecoder F, getPointFormat d < 128 →
      (∀ b, b ∈ bs → b.length < 227 ∨ b.take 4 = [76, 65, 83, 70]) →
      loadSequence ops d bs = some d1 → getPointFormat d1 < 128 := by
  induction bs with
  | nil =>
    intro d d1 hd _ hseq
    simp only [loadSequence, Option.some.injEq] at hseq
    rw [← hseq]; exact hd
  | cons b bs ih =>
    intro d d1 hd hbs hseq
    simp only [loadSequence] at hseq
    cases hl : loadData ops d b with
    | none => rw [hl] at hseq; simp at hseq
    | some rd =>
      obtain ⟨r, d2⟩ := rd
      rw [hl] at hseq
      simp only at hseq
      apply ih d2 d1 _ (fun c hc => hbs c (List.mem_cons_of_mem _ hc)) hseq
      rcases hbs b (List.mem_cons_self _ _) with hshort | hsig
      · rw [loadData_short ops d b hshort] at hl
        simp only [Option.some.injEq, Prod.mk.injEq] at hl
        rw [← hl.2]
        exact hd
      · by_cases hlen : b.length < 227
        · rw [loadData_short ops d b hlen] at hl
          simp only [Option.some.injEq, Prod.mk.injEq] at hl
          rw [← hl.2]
          exact hd
        · rw [getPointFormat_of_valid_header ops d d2 b r (by omega) hsig hl]
          exact Nat.mod_lt _ (by omega)

/-- C15 (as stated, refuted). A freshly constructed decoder that is given
`highBitBadSignatureFile` (227 bytes, signature "LASX", format byte `0x83`)
fails the load and then reports `getPointFormat() = 131`: `parseHeader` copies
the header into `header_` before it checks the signature and masks bit 7 only
after the check has passed. -/
theorem C15_format_unmasked_after_bad_signature :
    (loadData intOps (LAZDecoder.new Int) highBitBadSignatureFile).map
      (fun r => (r.1, getPointFormat r.2)) = some (false, 131) ∧
    (loadSequence intOps (LAZDecoder.new Int) [highBitBadSignatureFile]).map getPointFormat
      = some 131 := by
  decide

/-- C15 (amended). In every decoder state reached from construction by
`loadData` calls none of which is rejected for its signature (each buffer is
shorter than the header or starts with "LASF"), `getPointFormat()` lies in
0..127; and after any load whose header passed validation it equals the on-disk
point-format byte with bit 7 cleared. -/
theorem C15_format_masked_without_bad_signature {F : Type} (ops : DoubleOps F)
    (bs : List (List Byte)) (d : LAZDecoder F)
    (hbs : ∀ b, b ∈ bs → b.length < 227 ∨ b.take 4 = [76, 65, 83, 70])
    (hseq : loadSequence ops (LAZDecoder.new F) bs = some d) :
    getPointFormat d < 128 ∧
    (∀ (d0 d1 : LAZDecoder F) (b : List Byte) (r : Bool), 227 ≤ b.length →
      b.take 4 = [76, 65, 83, 70] → loadData ops d0 b = some (r, d1) →
      getPointFormat d1 = byteAt b 104 % 128 ∧ getPointFormat d1 < 128 ∧
      (getPointFormat d1).testBit 7 = false ∧
      ∀ j, j < 7 → (getPointFormat d1).testBit j = (byteAt b 104).testBit j) := by
  refine ⟨loadSequence_format_lt ops bs (LAZDecoder.new F) d
    (by rw [getPointFormat_new]; omega) hbs hseq, ?_⟩
  intro d0 d1 b r hlen hsig hload
  have h := getPointFormat_of_valid_header ops d0 d1 b r hlen hsig hload
  have hlt : byteAt b 104 % 128 < 128 := Nat.mod_lt _ (by omega)
  refine ⟨h, by omega, ?_, ?_⟩
  · rw [h]
    have : (128 : Nat) = 2 ^ 7 := by norm_num
    rw [this, Nat.testBit_mod_two_pow]
    simp
  · intro j hj
    rw [h]
    have : (128 : Nat) = 2 ^ 7 := by norm_num
    rw [this, Nat.testBit_mod_two_pow]
    simp [hj]

theorem C15_format_masked_without_bad_signature_witness :
    (∀ b, b ∈ [formatThreeFile, [76, 65]] → b.length < 227 ∨ b.take 4 = [76, 65, 83, 70]) ∧
    ∃ d, loadSequence intOps (LAZDecoder.new Int) [formatThreeFile, [76, 65]] = some d ∧
      getPointFormat d = 3 ∧ getPointFormat d < 128 := by
  have hbs : ∀ b, b ∈ [formatThreeFile, [76, 65]] →
      b.length < 227 ∨ b.take 4 = [76, 65, 83, 70] := by
    intro b hb
    simp only [List.mem_cons, List.mem_singleton, List.not_mem_nil, or_false] at hb
    rcases hb with rfl | rfl
    · right; decide
    · left; decide
  have hfmt : (loadSequence intOps (LAZDecoder.new Int) [formatThreeFile, [76, 65]]).map
      getPointFormat = some 3 := by decide
  cases hs : loadSequence intOps (LAZDecoder.new Int) [formatThreeFile, [76, 65]] with
  | none => rw [hs] at hfmt; simp at hfmt
  | some d =>
    rw [hs] at hfmt
    simp only [Option.map_some', Option.some.injEq] at hfmt
    exact ⟨hbs, d, rfl, hfmt,
      (C15_format_masked_without_bad_signature intOps [formatThreeFile, [76, 65]] d hbs hs).1⟩

/-! ## The two header layouts -/

/-- C16 (failing inputs). The wrapper's `LASHeader` is not packed, so the two
modules disagree. `formatThreeFile` (227 bytes, valid header) is accepted by
`parseHeader` and rejected by the wrapper's `loadData`, which asks for 232
bytes. On `onePointFile` (247 bytes, record length 20, one point) both accept,
but the wrapper holds record length 256 and point count 0. On `scenarioFile`
the packed `x_scale_factor` is the pattern of 0.01 and the wrapper's is not. -/
theorem C16_wrapper_layout_differs :
    ((parseHeader { LAZDecoder.new Int with data_ := formatThreeFile }).map Prod.fst
        = some true ∧
      (Wrapper.loadData freshWrapper formatThreeFile).map Prod.fst = some false) ∧
    ((parseHeader { LAZDecoder.new Int with data_ := onePointFile }).map
        (fun r => (r.1, LASHeader.point_data_record_length r.2.header_,
          LASHeader.legacy_number_of_point_records r.2.header_)) = some (true, 20, 1) ∧
      (Wrapper.loadData freshWrapper onePointFile).map
        (fun r => (r.1, Wrapper.LASHeader.point_data_record_length r.2.header,
          Wrapper.LASHeader.number_of_point_records r.2.header,
          Wrapper.getPointCount r.2)) = some (true, 256, 0, 0)) ∧
    ((parseHeader { LAZDecoder.new Int with data_ := scenarioFile }).map
        (fun r => (r.1, LASHeader.x_scale_factor r.2.header_,
          LASHeader.x_offset r.2.header_))
        = some (true, 0x3F847AE147AE147B, 0x4059000000000000) ∧
      (Wrapper.loadData freshWrapper scenarioFile).map
        (fun r => (r.1, Wrapper.LASHeader.x_scale_factor r.2.header,
          Wrapper.LASHeader.x_offset r.2.header))
        = some (true, 0x3F847A, 0x405900)) := by
  decide

/-! ## The streaming reader of the wrapper -/

/-- A successful `readNextPoint` happened below the declared count, advanced
the cursor by one and left buffer and header alone. -/
theorem Wrapper.readNextPoint_true (w w1 : Wrapper.LAZDecoder) (p p1 : List Byte)
    (h : Wrapper.readNextPoint w p = some (true, w1, p1)) :
    w.current_point < Wrapper.LASHeader.number_of_point_records w.header ∧
    w1.current_point = w.current_point + 1 ∧ w1.buffer = w.buffer ∧ w1.header = w.header := by
  unfold Wrapper.readNextPoint at h
  split at h
  · simp at h
  · rename_i hcp
    dsimp only at h
    split at h
    · simp at h
    · split at h
      · simp at h
      · simp only [Option.some.injEq, Prod.mk.injEq, true_and] at h
        have hlt := u32le_lt w.header 108
        unfold Wrapper.LASHeader.number_of_point_records at hcp ⊢
        have hmod : (w.current_point + 1) % 2 ^ 32 = w.current_point + 1 :=
          Nat.mod_eq_of_lt (by omega)
        rw [← h.1]
        exact ⟨by omega, hmod, rfl, rfl⟩

/-- What `readNextPoint` does while `offset + sizeof(LASPoint)` stays below
2^32: false at or beyond the declared count and when the 20-byte record at
`offset_to_point_data + current_point * point_data_record_length` would end
past the buffer, both without touching cursor or output; otherwise that record
and the cursor advanced by one. -/
theorem Wrapper.readNextPoint_spec (w : Wrapper.LAZDecoder) (p : List Byte)
    (hfit : FitsVector w.buffer) :
    (Wrapper.LASHeader.number_of_point_records w.header ≤ w.current_point →
      Wrapper.readNextPoint w p = some (false, w, p)) ∧
    (w.current_point < Wrapper.LASHeader.number_of_point_records w.header →
      Wrapper.LASHeader.offset_to_point_data w.header
        + w.current_point * Wrapper.LASHeader.point_data_record_length w.header + 20
        ≤ w.buffer.length →
      Wrapper.readNextPoint w p
        = some (true, { w with current_point := w.current_point + 1 },
            (w.buffer.drop (Wrapper.LASHeader.offset_to_point_data w.header
              + w.current_point * Wrapper.LASHeader.point_data_record_length w.header)).take
              20)) ∧
    (w.current_point < Wrapper.LASHeader.number_of_point_records w.header →
      w.buffer.length < Wrapper.LASHeader.offset_to_point_data w.header
        + w.current_point * Wrapper.LASHeader.point_data_record_length w.header + 20 →
      Wrapper.LASHeader.offset_to_point_data w.header
        + w.current_point * Wrapper.LASHeader.point_data_record_length w.header + 20
        < 2 ^ 32 →
      Wrapper.readNextPoint w p = some (false, w, p)) := by
  unfold FitsVector at hfit
  have hcnt := u32le_lt w.header 108
  unfold Wrapper.LASHeader.number_of_point_records
  refine ⟨fun h => ?_, fun hcp hin => ?_, fun hcp hout hwrap => ?_⟩
  · unfold Wrapper.readNextPoint Wrapper.LASHeader.number_of_point_records
    rw [if_pos h]
  · have hm1 : (w.current_point * Wrapper.LASHeader.point_data_record_length w.header)
        % 2 ^ 32 = w.current_point * Wrapper.LASHeader.point_data_record_length w.header :=
      Nat.mod_eq_of_lt (by omega)
    have hm2 : (Wrapper.LASHeader.offset_to_point_data w.header
        + w.current_point * Wrapper.LASHeader.point_data_record_length w.header) % 2 ^ 32
        = Wrapper.LASHeader.offset_to_point_data w.header
          + w.current_point * Wrapper.LASHeader.point_data_record_length w.header :=
      Nat.mod_eq_of_lt (by omega)
    have hm3 : (Wrapper.LASHeader.offset_to_point_data w.header
        + w.current_point * Wrapper.LASHeader.point_data_record_length w.header + 20) % 2 ^ 32
        = Wrapper.LASHeader.offset_to_point_data w.header
          + w.current_point * Wrapper.LASHeader.point_data_record_length w.header + 20 :=
      Nat.mod_eq_of_lt (by omega)
    have hm4 : (w.current_point + 1) % 2 ^ 32 = w.current_point + 1 :=
      Nat.mod_eq_of_lt (by omega)
    unfold Wrapper.readNextPoint Wrapper.LASHeader.number_of_point_records
    rw [if_neg (by omega)]
    simp only [Wrapper.sizeofLASPoint, hm1, hm2, hm3, hm4]
    rw [if_neg (by omega), readBytes_eq_some hin]
  · have hm1 : (w.current_point * Wrapper.LASHeader.point_data_record_length w.header)
        % 2 ^ 32 = w.current_point * Wrapper.LASHeader.point_data_record_length w.header :=
      Nat.mod_eq_of_lt (by omega)
    have hm2 : (Wrapper.LASHeader.offset_to_point_data w.header
        + w.current_point * Wrapper.LASHeader.point_data_record_length w.header) % 2 ^ 32
        = Wrapper.LASHeader.offset_to_point_data w.header
          + w.current_point * Wrapper.LASHeader.point_data_record_length w.header :=
      Nat.mod_eq_of_lt (by omega)
    have hm3 : (Wrapper.LASHeader.offset_to_point_data w.header
        + w.current_point * Wrapper.LASHeader.point_data_record_length w.header + 20) % 2 ^ 32
        = Wrapper.LASHeader.offset_to_point_data w.header
          + w.current_point * Wrapper.LASHeader.point_data_record_length w.header + 20 :=
      Nat.mod_eq_of_lt hwrap
    unfold Wrapper.readNextPoint Wrapper.LASHeader.number_of_point_records
    rw [if_neg (by omega)]
    simp only [Wrapper.sizeofLASPoint, hm1, hm2, hm3]
    rw [if_pos (by omega)]

/-- C19 (failing inputs). After the wrapper has loaded `wrapReaderFile`
(`offset_to_point_data = 0xFFFFFFF0`, `number_of_point_records = 1`, 247
bytes), the first `readNextPoint` neither returns false nor stays inside the
buffer: `offset + sizeof(LASPoint)` wraps to 4, the guard lets the call through
and the 20-byte copy starts at offset `0xFFFFFFF0`. After it has loaded
`onePointFile`, whose on-disk point count (bytes 107-110) is 1 and whose record
at offset 227 lies inside the buffer, the first `readNextPoint` returns false:
the unpacked header gives `number_of_point_records = 0`. -/
theorem C19_reader_offset_wraps :
    ((Wrapper.loadData freshWrapper wrapReaderFile).map
        (fun r => (r.1, r.2.current_point, r.2.buffer.length,
          Wrapper.LASHeader.offset_to_point_data r.2.header,
          Wrapper.LASHeader.number_of_point_records r.2.header))
        = some (true, 0, 247, 4294967280, 1) ∧
      (Wrapper.loadData freshWrapper wrapReaderFile).bind
        (fun r => Wrapper.readNextPoint r.2 (List.replicate 20 0)) = none) ∧
    (u32le onePointFile 107 = 1 ∧ u32le onePointFile 96 + 20 ≤ onePointFile.length ∧
      ((Wrapper.loadData freshWrapper onePointFile).bind
        (fun r => Wrapper.readNextPoint r.2 (List.replicate 20 0))).map
        (fun r => (r.1, r.2.1.current_point)) = some (false, 0)) :=
  ⟨⟨by decide, Option.isNone_iff_eq_none.1 (by decide)⟩, by decide, by decide, by decide⟩

end LAZ
